import Mathlib

/-!
# A shallow embedding of `mm_dlink_heap.c`

The allocator keeps two globals (`base`, `freep`) and works on raw memory obtained
from the memory provider (`memlib`).  The embedding keeps

* the memory as a total map from byte addresses to bytes,
* the provider's break and the two globals as fields of `State`,
* `size_t` as `Nat` reduced modulo `2 ^ 64` (LP64),
* `sizeof(Header)` and the provider's constants as fields of `Env`.

`Header` is a union: the control word `{blksize : 63, isalloc : 1}` and the link
`blkp` are the *same* eight bytes.  The bit-field is laid out as on the common
little-endian ABIs: `blksize` in the low 63 bits, `isalloc` in the top bit.
-/

namespace MM

/-- Constants the source takes from its environment. -/
structure Env where
  /-- The value of `sizeof(Header)`. -/
  hsz : Nat
  /-- The value of `mem_pagesize()`. -/
  pagesize : Nat
  /-- Address of the first byte of the provider's region. -/
  heapStart : Nat
  /-- Address one past the last byte the provider can hand out. -/
  heapMax : Nat

/-- Byte-addressed memory. -/
abbrev Mem := Nat → Nat

/-- Allocator state: the globals of the source, the provider's break, `errno`, memory. -/
structure State where
  base : Nat
  freep : Nat
  brk : Nat
  errno : Nat
  mem : Mem

/-- The null pointer. -/
def NULL : Nat := 0

/-- Value of `ENOMEM`. -/
def ENOMEM : Nat := 12

/-- Number of values of `size_t`. -/
def SIZE_MOD : Nat := 2 ^ 64

/-- The value `(void *) -1`. -/
def SBRK_FAIL : Nat := 2 ^ 64 - 1

/-- Weight of the `isalloc` bit inside the control word. -/
def ALLOC_BIT : Nat := 2 ^ 63

/-! ## Memory accesses -/

/-- Little-endian read of the eight-byte word at address `a`. -/
def readW (m : Mem) (a : Nat) : Nat :=
  m a % 256 + 256 * (m (a + 1) % 256) + 256 ^ 2 * (m (a + 2) % 256)
    + 256 ^ 3 * (m (a + 3) % 256) + 256 ^ 4 * (m (a + 4) % 256)
    + 256 ^ 5 * (m (a + 5) % 256) + 256 ^ 6 * (m (a + 6) % 256)
    + 256 ^ 7 * (m (a + 7) % 256)

/-- Little-endian store of the eight-byte word `w` at address `a`. -/
def writeW (m : Mem) (a w : Nat) : Mem :=
  fun x => if a ≤ x ∧ x < a + 8 then w / 256 ^ (x - a) % 256 else m x

/-- The field `s.blksize` of a control word. -/
def blksizeOf (w : Nat) : Nat := w % ALLOC_BIT

/-- The field `s.isalloc` of a control word. -/
def isallocOf (w : Nat) : Nat := w / ALLOC_BIT % 2

/-- Read `p->s.blksize`. -/
def getBlksize (m : Mem) (p : Nat) : Nat := blksizeOf (readW m p)

/-- Read `p->s.isalloc`. -/
def getIsalloc (m : Mem) (p : Nat) : Nat := isallocOf (readW m p)

/-- Read `p->blkp`. -/
def getBlkp (m : Mem) (p : Nat) : Nat := readW m p

/-- Assign `p->s.blksize = v`: the other bit of the word is kept. -/
def setBlksize (m : Mem) (p v : Nat) : Mem :=
  writeW m p (v % ALLOC_BIT + ALLOC_BIT * isallocOf (readW m p))

/-- Assign `p->s.isalloc = b`: the other 63 bits of the word are kept. -/
def setIsalloc (m : Mem) (p b : Nat) : Mem :=
  writeW m p (blksizeOf (readW m p) + ALLOC_BIT * (b % 2))

/-- Assign `p->blkp = q`. -/
def setBlkp (m : Mem) (p q : Nat) : Mem := writeW m p q

/-- The pointer `p + k` for `Header *p`, that is `&p[k]`. -/
def hdr (env : Env) (p k : Nat) : Nat := p + k * env.hsz

/-- The effect of `memcpy(dst, src, n)` on memory. -/
def memcpy (m : Mem) (dst src n : Nat) : Mem :=
  fun x => if dst ≤ x ∧ x < dst + n then m (src + (x - dst)) else m x

/-! ## The memory provider -/

/-- Modelled from the spec: `mem_sbrk` of `memlib` (§6 `providerGrow`), which is not part
of the repository.  It extends the region by `incr` bytes and returns the start of the
extension and the new break, or `(void *) -1` with the break unchanged when the region
cannot grow that far. -/
def mem_sbrk (env : Env) (brk incr : Nat) : Nat × Nat :=
  if brk + incr ≤ env.heapMax then (brk, brk + incr) else (SBRK_FAIL, brk)

/-! ## The allocator -/

/-- `mm_units`, on `size_t`. -/
def mm_units (env : Env) (nbytes : Nat) : Nat :=
  ((nbytes + env.hsz - 1) % SIZE_MOD / env.hsz + 4) % SIZE_MOD

/-- `mm_bytes`, on `size_t`. -/
def mm_bytes (env : Env) (nunits : Nat) : Nat :=
  nunits * env.hsz % SIZE_MOD

/-- `mm_payload`: `bp + 3`. -/
def mm_payload (env : Env) (bp : Nat) : Nat := hdr env bp 3

/-- `mm_block`: `(Header*)ap - 3`. -/
def mm_block (env : Env) (ap : Nat) : Nat := ap - 3 * env.hsz

/-- The body shared by `mm_init` and `mm_reset` after the provider call: obtain four units
and lay out the sentinel. -/
def initFrom (env : Env) (s : State) : State :=
  let r := mem_sbrk env s.brk (mm_bytes env 4)
  let b := r.1
  let m1 := setBlksize s.mem b 4
  let m2 := setIsalloc m1 b 1
  let m3 := setBlkp m2 (hdr env b 1) b
  let m4 := setBlkp m3 (hdr env b 2) b
  let m5 := setBlksize m4 (hdr env b 3) 4
  let m6 := setIsalloc m5 (hdr env b 3) 1
  { s with base := b, freep := b, brk := r.2, mem := m6 }

/-- `mm_init`: `mem_init()` puts the break at the start of the region. -/
def mm_init (env : Env) (s : State) : State :=
  initFrom env { s with brk := env.heapStart }

/-- `mm_reset`: `mem_reset_brk()` puts the break back at the start of the region. -/
def mm_reset (env : Env) (s : State) : State :=
  initFrom env { s with brk := env.heapStart }

/-- `mm_free`. -/
def mm_free (env : Env) (s : State) (ap : Nat) : State :=
  if ap = NULL then s
  else
    let bp := mm_block env ap
    let m1 := if getIsalloc s.mem bp = 1 then setIsalloc s.mem bp 0 else s.mem
    { s with mem := m1, freep := bp }

/-- `morecore`: the returned pointer and the state it leaves. -/
def morecore (env : Env) (s : State) (nu : Nat) : Nat × State :=
  let nalloc := env.pagesize / env.hsz
  let nu1 := if nu < nalloc then nalloc else nu
  let nbytes := mm_bytes env nu1
  let r := mem_sbrk env s.brk nbytes
  if r.1 = SBRK_FAIL then (NULL, { s with brk := r.2 })
  else
    let bp := r.1
    let s1 : State := { s with brk := r.2, mem := setBlksize s.mem bp nu1 }
    let s2 := mm_free env s1 (hdr env bp 1)
    (s2.freep, s2)

/-- The test of line 164: the block at `prevp` is large enough and free. -/
def fits (m : Mem) (nunits prevp : Nat) : Bool :=
  decide (getBlksize m prevp ≥ nunits) && decide (getIsalloc m prevp = 0)

/-- The `while (true)` loop of `mm_malloc`, started at `prevp`.  `none` means that the
loop is still running after `fuel` iterations. -/
def mallocLoop (env : Env) (nunits : Nat) : Nat → State → Nat → Option (Nat × State)
  | 0, _, _ => none
  | fuel + 1, s, prevp =>
    if fits s.mem nunits prevp then
      let m1 := if getBlksize s.mem prevp > nunits then setBlksize s.mem prevp nunits else s.mem
      let m2 := setIsalloc m1 prevp 1
      let m3 := setBlkp m2 s.freep prevp
      some (mm_payload env prevp, { s with mem := m3 })
    else if getBlkp s.mem (hdr env prevp 2) = s.base then
      let r := morecore env s nunits
      let add := r.1
      let s1 := r.2
      if add = NULL then some (NULL, { s1 with errno := ENOMEM })
      else
        let m1 := setIsalloc s1.mem add 1
        let m2 := setBlkp m1 (hdr env add 1) prevp
        let m3 := setBlkp m2 (hdr env add 2) s1.base
        let m4 := setBlkp m3 (hdr env prevp 2) add
        let m5 := setBlkp m4 (hdr env s1.base 1) add
        some (mm_payload env add, { s1 with mem := m5, freep := add })
    else mallocLoop env nunits fuel s (getBlkp s.mem (hdr env prevp 2))

/-- `mm_malloc`, with `fuel` bounding the iterations of its loop. -/
def mm_malloc (env : Env) (fuel : Nat) (s : State) (nbytes : Nat) : Option (Nat × State) :=
  let s0 := if s.freep = NULL then mm_init env s else s
  mallocLoop env (mm_units env nbytes) fuel s0 s0.base

/-- `mm_realloc`, with `fuel` bounding the loop of the `mm_malloc` it may call. -/
def mm_realloc (env : Env) (fuel : Nat) (s : State) (ap newsize : Nat) :
    Option (Nat × State) :=
  if ap = NULL then mm_malloc env fuel s newsize
  else
    let bp := mm_block env ap
    if newsize > 0 ∧ mm_bytes env (getBlksize s.mem bp) ≥ newsize then some (ap, s)
    else
      match mm_malloc env fuel s newsize with
      | none => none
      | some (newap, s1) =>
        if newap = NULL then some (NULL, s1)
        else
          let oldsize := mm_bytes env ((getBlksize s1.mem bp + SIZE_MOD - 4) % SIZE_MOD)
          let m1 := memcpy s1.mem newap ap (if oldsize < newsize then oldsize else newsize)
          let s2 := mm_free env { s1 with mem := m1 } ap
          some (newap, s2)

/-! ## Observations used to state the properties -/

/-- The blocks examined by the loop of `mm_malloc` for a request of `nunits` units, in order,
starting at `prevp`: the walk ends at the first block that passes the test of line 164, or
at the block whose next slot points to `base`. -/
def walkBlocks (env : Env) (nunits : Nat) : Nat → State → Nat → Option (List Nat)
  | 0, _, _ => none
  | fuel + 1, s, prevp =>
    if fits s.mem nunits prevp then some [prevp]
    else if getBlkp s.mem (hdr env prevp 2) = s.base then some [prevp]
    else (walkBlocks env nunits fuel s (getBlkp s.mem (hdr env prevp 2))).map (fun l => prevp :: l)

/-- The blocks met by following next links (slot 2) from block `b` until the link is `base`. -/
def listWalk (env : Env) (s : State) : Nat → Nat → Option (List Nat)
  | 0, _ => none
  | fuel + 1, b =>
    if getBlkp s.mem (hdr env b 2) = s.base then some [b]
    else (listWalk env s fuel (getBlkp s.mem (hdr env b 2))).map (fun l => b :: l)

/-- A run of `mm_malloc` calls, one per requested size: the pointers returned, in order, and
the final state. -/
def mallocSeq (env : Env) (fuel : Nat) : State → List Nat → Option (List Nat × State)
  | s, [] => some ([], s)
  | s, n :: ns =>
    match mm_malloc env fuel s n with
    | none => none
    | some (p, s1) =>
      match mallocSeq env fuel s1 ns with
      | none => none
      | some (ps, s2) => some (p :: ps, s2)

/-- A store of one byte by the owner of a payload. -/
def storeByte (m : Mem) (a v : Nat) : Mem :=
  fun x => if x = a then v % 256 else m x

/-! ## Concrete environments and heaps -/

/-- An LP64 Linux process: `sizeof(Header) = 32`, 4 KiB pages, a 20 MiB region obtained
from the C library at a 16-byte aligned address. -/
def env64 : Env :=
  { hsz := 32, pagesize := 4096, heapStart := 0x7f0000000010,
    heapMax := 0x7f0000000010 + 20 * 2 ^ 20 }

/-- The same provider with its 20 MiB region mapped at address `0x10000`. -/
def envLow : Env :=
  { hsz := 32, pagesize := 4096, heapStart := 0x10000, heapMax := 0x10000 + 20 * 2 ^ 20 }

/-- Process start: both globals are `NULL`, memory is zero-filled. -/
def st0 : State :=
  { base := NULL, freep := NULL, brk := 0, errno := 0, mem := fun _ => 0 }

/-- A heap laid out as section 3 of the specification prescribes, built on `mm_init`: after
the sentinel come a free block `A` of 5 units at `base + 4`, linked after the sentinel, and
an allocated block `B` of 5 units at `base + 9`. -/
def heapFreeThenAllocated : State :=
  let s := mm_init env64 st0
  let a := hdr env64 s.base 4
  let b := hdr env64 s.base 9
  let m1 := setIsalloc (setBlksize s.mem a 5) a 0
  let m2 := setBlkp (setBlkp m1 (hdr env64 a 1) s.base) (hdr env64 a 2) s.base
  let m3 := setIsalloc (setBlksize m2 (hdr env64 a 4) 5) (hdr env64 a 4) 0
  let m4 := setBlkp (setBlkp m3 (hdr env64 s.base 1) a) (hdr env64 s.base 2) a
  let m5 := setIsalloc (setBlksize m4 b 5) b 1
  let m6 := setIsalloc (setBlksize m5 (hdr env64 b 4) 5) (hdr env64 b 4) 1
  { s with brk := s.brk + 10 * env64.hsz, mem := m6 }

/-- A heap laid out as section 3 of the specification prescribes, built on `mm_init`: the
list holds the sentinel alone, and an allocated block of 5 units sits at `base + 4`. -/
def heapOneAllocated : State :=
  let s := mm_init env64 st0
  let b := hdr env64 s.base 4
  let m1 := setIsalloc (setBlksize s.mem b 5) b 1
  let m2 := setIsalloc (setBlksize m1 (hdr env64 b 4) 5) (hdr env64 b 4) 1
  { s with brk := s.brk + 5 * env64.hsz, mem := m2 }

/-- A heap laid out as section 3 of the specification prescribes, built on `mm_init`: after
the sentinel comes one free block of 12 units at `base + 4`, linked after the sentinel. -/
def heapOneFree : State :=
  let s := mm_init env64 st0
  let f := hdr env64 s.base 4
  let m1 := setIsalloc (setBlksize s.mem f 12) f 0
  let m2 := setBlkp (setBlkp m1 (hdr env64 f 1) s.base) (hdr env64 f 2) s.base
  let m3 := setIsalloc (setBlksize m2 (hdr env64 f 11) 12) (hdr env64 f 11) 0
  let m4 := setBlkp (setBlkp m3 (hdr env64 s.base 1) f) (hdr env64 s.base 2) f
  { s with brk := s.brk + 12 * env64.hsz, mem := m4 }

/-- A provider with room for the sentinel only: every growth request is refused. -/
def envFull : Env :=
  { hsz := 32, pagesize := 4096, heapStart := 0x7f0000000010,
    heapMax := 0x7f0000000010 + 4 * 32 }

/-! ## Runs of calls -/

/-- A call of the public interface. -/
inductive Call where
  | malloc (nbytes : Nat)
  | free (ap : Nat)
  | realloc (ap newsize : Nat)

/-- One call: the pointer it returns (`NULL` for `mm_free`, which returns nothing) and the
state it leaves. -/
def step (env : Env) (fuel : Nat) (s : State) : Call → Option (Nat × State)
  | Call.malloc n => mm_malloc env fuel s n
  | Call.free ap => some (NULL, mm_free env s ap)
  | Call.realloc ap n => mm_realloc env fuel s ap n

/-- A run of calls: the result of each call, in order. -/
def run (env : Env) (fuel : Nat) : State → List Call → Option (List (Nat × State))
  | _, [] => some []
  | s, c :: cs =>
    match step env fuel s c with
    | none => none
    | some r => (run env fuel r.2 cs).map (fun tr => r :: tr)

/-- The pointer handed to `mm_free` or `mm_realloc` is `NULL` or was returned by an
earlier call of the run. -/
def argOk (ptrs : List Nat) : Call → Bool
  | Call.malloc _ => true
  | Call.free ap => decide (ap = NULL ∨ ap ∈ ptrs)
  | Call.realloc ap _ => decide (ap = NULL ∨ ap ∈ ptrs)

/-- The request is small next to the heap's address: its unit count does not exceed the
address of the sentinel's next slot. -/
def sizeOk (env : Env) : Call → Bool
  | Call.malloc n => decide (mm_units env n ≤ env.heapStart + 2 * env.hsz)
  | Call.free _ => true
  | Call.realloc _ n => decide (mm_units env n ≤ env.heapStart + 2 * env.hsz)

/-- Every call of the run, made from state `s` with `ptrs` returned so far, passes `argOk`
and `sizeOk`. -/
def wellUsed (env : Env) (fuel : Nat) : List Nat → State → List Call → Bool
  | _, _, [] => true
  | ptrs, s, c :: cs =>
    argOk ptrs c && sizeOk env c &&
      match step env fuel s c with
      | none => true
      | some r => wellUsed env fuel (r.1 :: ptrs) r.2 cs

/-- An environment of the usual kind: units of at least eight bytes, a region that does not
start at address 0, lies below `2 ^ 63` and has room for the sentinel. -/
def Sane (env : Env) : Prop :=
  8 ≤ env.hsz ∧ 0 < env.heapStart ∧ env.heapStart + 4 * env.hsz < 2 ^ 63
    ∧ env.heapStart + 4 * env.hsz ≤ env.heapMax

/-- The heap as `mm_init` leaves it: the sentinel alone, the break right after it. -/
def Fresh (env : Env) (s : State) : Prop :=
  s.base = env.heapStart ∧ s.freep = env.heapStart ∧ s.brk = env.heapStart + 4 * env.hsz
    ∧ getIsalloc s.mem env.heapStart = 1
    ∧ getBlkp s.mem (hdr env env.heapStart 2) = env.heapStart

/-- The heap after the first growth: the sentinel's next slot holds its own address, the
slot two units further on holds `base`, and `freep` points to the sentinel's next slot. -/
def Stable (env : Env) (s : State) : Prop :=
  s.base = env.heapStart ∧ s.freep = hdr env env.heapStart 2
    ∧ getIsalloc s.mem env.heapStart = 1
    ∧ getBlkp s.mem (hdr env env.heapStart 2) = hdr env env.heapStart 2
    ∧ getBlkp s.mem (hdr env env.heapStart 4) = env.heapStart

/-- The invariant of such runs: the heap is fresh and no pointer was handed out yet, or the
heap is stable and the only pointer handed out is the payload of the block at the
sentinel's next slot. -/
def Tracked (env : Env) (ptrs : List Nat) (s : State) : Prop :=
  (Fresh env s ∧ ∀ q ∈ ptrs, q = NULL)
    ∨ (Stable env s ∧ ∀ q ∈ ptrs, q = NULL ∨ q = mm_payload env (hdr env env.heapStart 2))

/-! ## Diagnostics and run observations -/

/-- The `while` loop of `mm_getfree`, at block `tmp` with running total `res`.  `none` means
that the loop is still running after `fuel` iterations. -/
def getfreeLoop (env : Env) (m : Mem) : Nat → Nat → Nat → Option Nat
  | 0, _, _ => none
  | fuel + 1, tmp, res =>
    if getBlkp m tmp > tmp then
      getfreeLoop env m fuel (getBlkp m (hdr env tmp 2))
        ((res + getBlksize m (getBlkp m (hdr env tmp 2))) % SIZE_MOD)
    else some (mm_bytes env res)

/-- `mm_getfree`, with `fuel` bounding the iterations of its loop. -/
def mm_getfree (env : Env) (fuel : Nat) (s : State) : Option Nat :=
  if s.freep = NULL then some 0
  else getfreeLoop env s.mem fuel s.freep (getBlksize s.mem s.freep)

/-- The state a run of calls ends in (the starting state when the run is empty or does not
return). -/
def finalState (env : Env) (fuel : Nat) (s : State) (cs : List Call) : State :=
  match run env fuel s cs with
  | some tr => (tr.getLastD (NULL, s)).2
  | none => s

/-- The pointers returned by a run of calls, in order. -/
def returned (env : Env) (fuel : Nat) (s : State) (cs : List Call) : Option (List Nat) :=
  (run env fuel s cs).map (fun tr => tr.map Prod.fst)

/-- Following next links (slot 2) from block `b`, the block `t` is met within `fuel` steps
and before the walk comes back to `base`. -/
def visits (env : Env) (m : Mem) (base : Nat) : Nat → Nat → Nat → Bool
  | 0, _, _ => false
  | fuel + 1, b, t =>
    decide (b = t) ||
      (decide (getBlkp m (hdr env b 2) ≠ base)
        && visits env m base fuel (getBlkp m (hdr env b 2)) t)

/-- The words `mm_malloc` stores into when its walk for `nunits` units ends at `prevp`.
When the block is taken: the header of `prevp` and the word at `freep`.  On growth: the
header of the new region, the header and the two link slots of the block `morecore`
returns, the next slot of `prevp` and the sentinel's prev slot. -/
def storedWords (env : Env) (s : State) (nunits prevp : Nat) : List Nat :=
  if fits s.mem nunits prevp then [prevp, s.freep]
  else [s.brk, (morecore env s nunits).1, hdr env (morecore env s nunits).1 1,
    hdr env (morecore env s nunits).1 2, hdr env prevp 2, hdr env s.base 1]

/-! ## Words in memory -/

theorem bytes_of_word (w : Nat) :
    w % 256 + 256 * (w / 256 % 256) + 65536 * (w / 65536 % 256)
      + 16777216 * (w / 16777216 % 256) + 4294967296 * (w / 4294967296 % 256)
      + 1099511627776 * (w / 1099511627776 % 256)
      + 281474976710656 * (w / 281474976710656 % 256)
      + 72057594037927936 * (w / 72057594037927936 % 256) = w % 18446744073709551616 := by
  omega

theorem readW_writeW_same (m : Mem) (a w : Nat) :
    readW (writeW m a w) a = w % 2 ^ 64 := by
  have h := bytes_of_word w
  simp only [readW, writeW]
  norm_num
  omega

theorem readW_writeW_apart (m : Mem) (a w b : Nat) (h : b + 8 ≤ a ∨ a + 8 ≤ b) :
    readW (writeW m a w) b = readW m b := by
  have e : ∀ i, i < 8 → writeW m a w (b + i) = m (b + i) := by
    intro i hi
    unfold writeW
    rw [if_neg]
    omega
  have e0 := e 0 (by decide)
  simp only [Nat.add_zero] at e0
  simp only [readW, e0, e 1 (by decide), e 2 (by decide), e 3 (by decide), e 4 (by decide),
    e 5 (by decide), e 6 (by decide), e 7 (by decide)]

theorem blksizeOf_lt (w : Nat) : blksizeOf w < 2 ^ 63 := by
  unfold blksizeOf ALLOC_BIT
  omega

theorem isallocOf_cases (w : Nat) : isallocOf w = 0 ∨ isallocOf w = 1 := by
  unfold isallocOf
  omega

theorem readW_setIsalloc_same (m : Mem) (p b : Nat) :
    readW (setIsalloc m p b) p = getBlksize m p + ALLOC_BIT * (b % 2) := by
  unfold setIsalloc getBlksize
  rw [readW_writeW_same]
  have h := blksizeOf_lt (readW m p)
  unfold ALLOC_BIT
  omega

theorem getIsalloc_setIsalloc_same (m : Mem) (p b : Nat) :
    getIsalloc (setIsalloc m p b) p = b % 2 := by
  unfold getIsalloc
  rw [readW_setIsalloc_same]
  have h := blksizeOf_lt (readW m p)
  unfold getBlksize isallocOf ALLOC_BIT
  omega

theorem getBlksize_setIsalloc_same (m : Mem) (p b : Nat) :
    getBlksize (setIsalloc m p b) p = getBlksize m p := by
  have h := blksizeOf_lt (readW m p)
  have e := readW_setIsalloc_same m p b
  unfold getBlksize at *
  rw [e]
  unfold blksizeOf ALLOC_BIT at *
  omega

theorem readW_setIsalloc_apart (m : Mem) (p b a : Nat) (h : a + 8 ≤ p ∨ p + 8 ≤ a) :
    readW (setIsalloc m p b) a = readW m a :=
  readW_writeW_apart m p _ a h

theorem readW_setBlksize_apart (m : Mem) (p v a : Nat) (h : a + 8 ≤ p ∨ p + 8 ≤ a) :
    readW (setBlksize m p v) a = readW m a :=
  readW_writeW_apart m p _ a h

theorem readW_setBlkp_apart (m : Mem) (p q a : Nat) (h : a + 8 ≤ p ∨ p + 8 ≤ a) :
    readW (setBlkp m p q) a = readW m a :=
  readW_writeW_apart m p _ a h

theorem readW_setBlkp_same (m : Mem) (p q : Nat) (hq : q < 2 ^ 64) :
    readW (setBlkp m p q) p = q := by
  unfold setBlkp
  rw [readW_writeW_same]
  exact Nat.mod_eq_of_lt hq

/-- Outside the eight bytes of the word it stores, `writeW` leaves every byte alone. -/
theorem writeW_apart (m : Mem) (a w x : Nat) (h : x < a ∨ a + 8 ≤ x) :
    writeW m a w x = m x := by
  unfold writeW
  rw [if_neg]
  omega

/-! ## The loop of `mm_malloc` -/

theorem mem_sbrk_cases (env : Env) (brk incr : Nat) :
    mem_sbrk env brk incr = (brk, brk + incr) ∨ mem_sbrk env brk incr = (SBRK_FAIL, brk) := by
  unfold mem_sbrk
  split
  · exact Or.inl rfl
  · exact Or.inr rfl

/-- With a non-empty heap below the break, `morecore` returns `NULL` only when the provider
refuses, and then it leaves the globals and the memory alone. -/
theorem morecore_null (env : Env) (s : State) (nu : Nat) (hbrk : 2 * env.hsz < s.brk) :
    ((morecore env s nu).1 = NULL ↔
      (mem_sbrk env s.brk (mm_bytes env
        (if nu < env.pagesize / env.hsz then env.pagesize / env.hsz else nu))).1 = SBRK_FAIL)
    ∧ ((morecore env s nu).1 = NULL →
        (morecore env s nu).2.base = s.base ∧ (morecore env s nu).2.freep = s.freep
          ∧ (morecore env s nu).2.mem = s.mem ∧ (morecore env s nu).2.errno = s.errno) := by
  unfold morecore
  simp only []
  generalize (if nu < env.pagesize / env.hsz then env.pagesize / env.hsz else nu) = nu1
  by_cases hf : (mem_sbrk env s.brk (mm_bytes env nu1)).1 = SBRK_FAIL
  · simp [hf]
  · have hr : (mem_sbrk env s.brk (mm_bytes env nu1)).1 = s.brk := by
      rcases mem_sbrk_cases env s.brk (mm_bytes env nu1) with h | h
      · rw [h]
      · rw [h] at hf
        exact absurd rfl hf
    have hne : hdr env s.brk 1 ≠ NULL := by
      unfold hdr NULL
      omega
    have hfp : mm_block env (hdr env s.brk 1) ≠ NULL := by
      unfold mm_block hdr NULL
      omega
    rw [if_neg hf, hr]
    simp only [mm_free, if_neg hne]
    exact ⟨⟨fun h => absurd h hfp, fun h => absurd (hr.trans h) hf⟩, fun h => absurd h hfp⟩

/-- When the walk ends within the fuel, the loop returns; it returns `NULL` exactly when no
block it examined passes the test and the provider refuses, and then only `errno` changed. -/
theorem mallocLoop_null (env : Env) (s : State) (nunits : Nat) (hH : 0 < env.hsz)
    (hbrk : 2 * env.hsz < s.brk) :
    ∀ (fuel prevp : Nat) (l : List Nat), walkBlocks env nunits fuel s prevp = some l →
      ∃ ret s', mallocLoop env nunits fuel s prevp = some (ret, s')
        ∧ (ret = NULL ↔ (∀ b ∈ l, fits s.mem nunits b = false)
            ∧ (mem_sbrk env s.brk (mm_bytes env
                (if nunits < env.pagesize / env.hsz then env.pagesize / env.hsz
                  else nunits))).1 = SBRK_FAIL)
        ∧ (ret = NULL →
            s'.errno = ENOMEM ∧ s'.base = s.base ∧ s'.freep = s.freep ∧ s'.mem = s.mem) := by
  intro fuel
  induction fuel with
  | zero =>
    intro prevp l h
    simp [walkBlocks] at h
  | succ k ih =>
    intro prevp l h
    unfold walkBlocks at h
    unfold mallocLoop
    by_cases hfit : fits s.mem nunits prevp = true
    · rw [if_pos hfit] at h
      rw [if_pos hfit]
      have hl : l = [prevp] := by
        injection h with h
        exact h.symm
      have hp : mm_payload env prevp ≠ NULL := by
        unfold mm_payload hdr NULL
        omega
      refine ⟨_, _, rfl, ⟨fun e => absurd e hp, fun e => ?_⟩, fun e => absurd e hp⟩
      have := e.1 prevp (by simp [hl])
      rw [hfit] at this
      exact absurd this (by decide)
    · rw [if_neg hfit] at h
      rw [if_neg hfit]
      have hfit2 : fits s.mem nunits prevp = false := by
        cases hv : fits s.mem nunits prevp
        · rfl
        · exact absurd hv hfit
      by_cases htail : getBlkp s.mem (hdr env prevp 2) = s.base
      · rw [if_pos htail] at h
        rw [if_pos htail]
        have hl : l = [prevp] := by
          injection h with h
          exact h.symm
        have hm := morecore_null env s nunits hbrk
        by_cases hadd : (morecore env s nunits).1 = NULL
        · simp only [hadd, if_true]
          obtain ⟨hb, hf, hmem, _⟩ := hm.2 hadd
          refine ⟨_, _, rfl, ⟨fun _ => ⟨?_, hm.1.1 hadd⟩, fun _ => rfl⟩, fun _ => ⟨rfl, hb, hf, hmem⟩⟩
          intro b hbl
          rw [hl] at hbl
          simp at hbl
          rw [hbl]
          exact hfit2
        · simp only [hadd, if_false]
          have hp : mm_payload env (morecore env s nunits).1 ≠ NULL := by
            unfold mm_payload hdr NULL
            omega
          refine ⟨_, _, rfl, ⟨fun e => absurd e hp, fun e => ?_⟩, fun e => absurd e hp⟩
          exact absurd (hm.1.2 e.2) hadd
      · rw [if_neg htail] at h
        rw [if_neg htail]
        cases hw : walkBlocks env nunits k s (getBlkp s.mem (hdr env prevp 2)) with
        | none => simp [hw] at h
        | some l1 =>
          rw [hw] at h
          have hl : l = prevp :: l1 := by
            simp at h
            exact h.symm
          obtain ⟨ret, s', hrun, hiff, hst⟩ := ih _ l1 hw
          refine ⟨ret, s', hrun, ⟨fun e => ?_, fun e => ?_⟩, hst⟩
          · have := hiff.1 e
            refine ⟨?_, this.2⟩
            intro b hbl
            rw [hl] at hbl
            rcases List.mem_cons.1 hbl with hb | hb
            · rw [hb]
              exact hfit2
            · exact this.1 b hb
          · refine hiff.2 ⟨fun b hb => e.1 b ?_, e.2⟩
            rw [hl]
            exact List.mem_cons_of_mem _ hb

/-- C8: on an initialized heap (`freep != NULL`, the sentinel below the break) whose walk
from the sentinel ends, `mm_malloc(n)` returns, and it returns `NULL` exactly when no block
examined by the walk fits and `mem_sbrk` returns `(void *) -1` for the growth request; in
that case `errno` is `ENOMEM` and `base`, `freep` and every byte of memory are as before. -/
theorem mm_malloc_null_iff (env : Env) (s : State) (n fuel : Nat) (l : List Nat)
    (hH : 0 < env.hsz) (hinit : s.freep ≠ NULL) (hbrk : s.base + 4 * env.hsz ≤ s.brk)
    (hwalk : walkBlocks env (mm_units env n) fuel s s.base = some l) :
    ∃ ret s', mm_malloc env fuel s n = some (ret, s')
      ∧ (ret = NULL ↔ (∀ b ∈ l, fits s.mem (mm_units env n) b = false)
          ∧ (mem_sbrk env s.brk (mm_bytes env
              (if mm_units env n < env.pagesize / env.hsz then env.pagesize / env.hsz
                else mm_units env n))).1 = SBRK_FAIL)
      ∧ (ret = NULL →
          s'.errno = ENOMEM ∧ s'.base = s.base ∧ s'.freep = s.freep ∧ s'.mem = s.mem) := by
  unfold mm_malloc
  simp only [if_neg hinit]
  exact mallocLoop_null env s (mm_units env n) hH (by omega) fuel s.base l hwalk

/-- Witness for C8: the provider `envFull` has no room beyond the sentinel, so the first
request after `mm_init` walks the sentinel alone and fails. -/
theorem mm_malloc_null_iff_witness :
    ∃ ret s', mm_malloc envFull 10 (mm_init envFull st0) 8 = some (ret, s')
      ∧ (ret = NULL ↔ (∀ b ∈ [0x7f0000000010],
            fits (mm_init envFull st0).mem (mm_units envFull 8) b = false)
          ∧ (mem_sbrk envFull (mm_init envFull st0).brk (mm_bytes envFull
              (if mm_units envFull 8 < envFull.pagesize / envFull.hsz
                then envFull.pagesize / envFull.hsz else mm_units envFull 8))).1 = SBRK_FAIL)
      ∧ (ret = NULL →
          s'.errno = ENOMEM ∧ s'.base = (mm_init envFull st0).base
            ∧ s'.freep = (mm_init envFull st0).freep ∧ s'.mem = (mm_init envFull st0).mem) :=
  mm_malloc_null_iff envFull (mm_init envFull st0) 8 10 [0x7f0000000010]
    (by decide) (by decide) (by decide) (by decide)

/-! ## `mm_free` -/

/-- C5 (amended): for every non-NULL `ap`, `mm_free(ap)` marks the header at `mm_block(ap)`
free, keeps its `blksize`, sets `freep` to the block and keeps `base`; it links nothing:
every byte outside the eight bytes of that header word is as before the call, so the
sentinel's next slot, the block's own prev and next slots and the prev slot of the
sentinel's successor, wherever they lie outside those eight bytes, keep their values. -/
theorem mm_free_marks_without_linking (env : Env) (s : State) (ap : Nat) (hap : ap ≠ NULL) :
    getIsalloc (mm_free env s ap).mem (mm_block env ap) = 0
      ∧ getBlksize (mm_free env s ap).mem (mm_block env ap) = getBlksize s.mem (mm_block env ap)
      ∧ (mm_free env s ap).freep = mm_block env ap
      ∧ (mm_free env s ap).base = s.base
      ∧ ∀ x, (x < mm_block env ap ∨ mm_block env ap + 8 ≤ x) →
          (mm_free env s ap).mem x = s.mem x := by
  have e : mm_free env s ap =
      { s with
        mem := (if getIsalloc s.mem (mm_block env ap) = 1
          then setIsalloc s.mem (mm_block env ap) 0 else s.mem),
        freep := mm_block env ap } := by
    unfold mm_free
    rw [if_neg hap]
  rw [e]
  refine ⟨?_, ?_, rfl, rfl, ?_⟩
  · show getIsalloc (if getIsalloc s.mem (mm_block env ap) = 1
        then setIsalloc s.mem (mm_block env ap) 0 else s.mem) (mm_block env ap) = 0
    split
    · rw [getIsalloc_setIsalloc_same]
    · rename_i h1
      rcases isallocOf_cases (readW s.mem (mm_block env ap)) with h0 | h0
      · exact h0
      · exact absurd h0 h1
  · show getBlksize (if getIsalloc s.mem (mm_block env ap) = 1
        then setIsalloc s.mem (mm_block env ap) 0 else s.mem) (mm_block env ap)
        = getBlksize s.mem (mm_block env ap)
    split
    · rw [getBlksize_setIsalloc_same]
    · rfl
  · intro x hx
    show (if getIsalloc s.mem (mm_block env ap) = 1
        then setIsalloc s.mem (mm_block env ap) 0 else s.mem) x = s.mem x
    split
    · exact writeW_apart _ _ _ _ hx
    · rfl

/-- Witness for C5 (amended): the allocated block of `heapOneAllocated`. -/
theorem mm_free_marks_without_linking_witness :
    mm_payload env64 (hdr env64 heapOneAllocated.base 4) ≠ NULL
      ∧ getIsalloc (mm_free env64 heapOneAllocated
            (mm_payload env64 (hdr env64 heapOneAllocated.base 4))).mem
          (mm_block env64 (mm_payload env64 (hdr env64 heapOneAllocated.base 4))) = 0
      ∧ getBlksize (mm_free env64 heapOneAllocated
            (mm_payload env64 (hdr env64 heapOneAllocated.base 4))).mem
          (mm_block env64 (mm_payload env64 (hdr env64 heapOneAllocated.base 4)))
          = getBlksize heapOneAllocated.mem
              (mm_block env64 (mm_payload env64 (hdr env64 heapOneAllocated.base 4)))
      ∧ (mm_free env64 heapOneAllocated
            (mm_payload env64 (hdr env64 heapOneAllocated.base 4))).freep
          = mm_block env64 (mm_payload env64 (hdr env64 heapOneAllocated.base 4))
      ∧ (mm_free env64 heapOneAllocated
            (mm_payload env64 (hdr env64 heapOneAllocated.base 4))).base = heapOneAllocated.base
      ∧ ∀ x, (x < mm_block env64 (mm_payload env64 (hdr env64 heapOneAllocated.base 4))
            ∨ mm_block env64 (mm_payload env64 (hdr env64 heapOneAllocated.base 4)) + 8 ≤ x) →
          (mm_free env64 heapOneAllocated
            (mm_payload env64 (hdr env64 heapOneAllocated.base 4))).mem x
            = heapOneAllocated.mem x :=
  ⟨by decide, mm_free_marks_without_linking env64 heapOneAllocated
    (mm_payload env64 (hdr env64 heapOneAllocated.base 4)) (by decide)⟩

/-! ## Runs from `mm_init` with small requests -/

theorem mm_init_fresh (env : Env) (s0 : State) (h : Sane env) : Fresh env (mm_init env s0) := by
  obtain ⟨h8, hpos, hB, hroom⟩ := h
  have hb4 : mm_bytes env 4 = 4 * env.hsz := by
    unfold mm_bytes SIZE_MOD
    omega
  have hs : mem_sbrk env env.heapStart (mm_bytes env 4)
      = (env.heapStart, env.heapStart + 4 * env.hsz) := by
    unfold mem_sbrk
    rw [hb4, if_pos hroom]
  unfold mm_init initFrom
  simp only [hs]
  refine ⟨rfl, rfl, rfl, ?_, ?_⟩
  · show getIsalloc _ env.heapStart = 1
    unfold getIsalloc
    simp only [hdr]
    rw [readW_setIsalloc_apart _ _ _ _ (by omega), readW_setBlksize_apart _ _ _ _ (by omega),
      readW_setBlkp_apart _ _ _ _ (by omega), readW_setBlkp_apart _ _ _ _ (by omega)]
    exact getIsalloc_setIsalloc_same _ _ _
  · show getBlkp _ (hdr env env.heapStart 2) = env.heapStart
    unfold getBlkp
    simp only [hdr]
    rw [readW_setIsalloc_apart _ _ _ _ (by omega), readW_setBlksize_apart _ _ _ _ (by omega),
      readW_setBlkp_same _ _ _ (by omega)]

theorem fits_allocated (m : Mem) (nunits p : Nat) (h : getIsalloc m p = 1) :
    fits m nunits p = false := by
  unfold fits
  simp [h]

theorem readW_if_setBlksize_apart (c : Prop) [Decidable c] (m : Mem) (p v a : Nat)
    (h : a + 8 ≤ p ∨ p + 8 ≤ a) :
    readW (if c then setBlksize m p v else m) a = readW m a := by
  split
  · exact readW_setBlksize_apart m p v a h
  · rfl

/-- In a stable heap a small request takes the block at the sentinel's next slot and leaves
the heap stable. -/
theorem mallocLoop_stable (env : Env) (s : State) (nunits k : Nat) (h : Sane env)
    (hs : Stable env s) (hn : nunits ≤ env.heapStart + 2 * env.hsz) :
    ∃ s', mallocLoop env nunits (k + 2) s s.base
        = some (mm_payload env (hdr env env.heapStart 2), s')
      ∧ Stable env s' := by
  obtain ⟨h8, hpos, hB, hroom⟩ := h
  obtain ⟨hbase, hfreep, halloc, hnext, hnext2⟩ := hs
  have hw : readW s.mem (env.heapStart + 2 * env.hsz) = env.heapStart + 2 * env.hsz := by
    simpa [getBlkp, hdr] using hnext
  have hfit : fits s.mem nunits (hdr env env.heapStart 2) = true := by
    unfold fits getBlksize getIsalloc blksizeOf isallocOf ALLOC_BIT hdr
    rw [hw]
    simp only [Bool.and_eq_true, decide_eq_true_eq]
    omega
  unfold mallocLoop
  rw [hbase, if_neg (by rw [fits_allocated _ _ _ halloc]; decide),
    if_neg (by rw [hnext]; unfold hdr; omega)]
  unfold mallocLoop
  rw [hnext, if_pos hfit]
  refine ⟨_, rfl, hbase, hfreep, ?_, ?_, ?_⟩
  · show getIsalloc _ env.heapStart = 1
    unfold getIsalloc
    rw [hfreep]
    simp only [hdr]
    rw [readW_setBlkp_apart _ _ _ _ (by omega), readW_setIsalloc_apart _ _ _ _ (by omega),
      readW_if_setBlksize_apart _ _ _ _ _ (by omega)]
    exact halloc
  · show getBlkp _ (hdr env env.heapStart 2) = hdr env env.heapStart 2
    unfold getBlkp
    rw [hfreep]
    simp only [hdr]
    rw [readW_setBlkp_same _ _ _ (by omega)]
  · show getBlkp _ (hdr env env.heapStart 4) = env.heapStart
    unfold getBlkp
    rw [hfreep]
    simp only [hdr]
    rw [readW_setBlkp_apart _ _ _ _ (by omega), readW_setIsalloc_apart _ _ _ _ (by omega),
      readW_if_setBlksize_apart _ _ _ _ _ (by omega)]
    simpa [getBlkp, hdr] using hnext2

theorem morecore_fresh (env : Env) (s : State) (nu : Nat) (h : Sane env) (hs : Fresh env s) :
    morecore env s nu = (NULL, s)
      ∨ ∃ incr v, morecore env s nu = (hdr env env.heapStart 2,
          { base := s.base, freep := hdr env env.heapStart 2, brk := s.brk + incr,
            errno := s.errno, mem := setBlksize s.mem (hdr env env.heapStart 4) v }) := by
  obtain ⟨h8, hpos, hB, hroom⟩ := h
  obtain ⟨hbase, hfreep, hbrk, halloc, hnext⟩ := hs
  unfold morecore
  simp only []
  generalize (if nu < env.pagesize / env.hsz then env.pagesize / env.hsz else nu) = nu1
  rcases mem_sbrk_cases env s.brk (mm_bytes env nu1) with hr | hr
  · right
    refine ⟨mm_bytes env nu1, nu1, ?_⟩
    have hbrk4 : s.brk = hdr env env.heapStart 4 := by rw [hbrk]; rfl
    have hne : ¬ s.brk = SBRK_FAIL := by
      unfold SBRK_FAIL
      omega
    have hap : ¬ hdr env s.brk 1 = NULL := by
      unfold hdr NULL
      omega
    have hbp : mm_block env (hdr env s.brk 1) = hdr env env.heapStart 2 := by
      unfold mm_block hdr
      omega
    have hz : ¬ getIsalloc (setBlksize s.mem s.brk nu1) (hdr env env.heapStart 2) = 1 := by
      unfold getIsalloc
      rw [hbrk]
      simp only [hdr]
      rw [readW_setBlksize_apart _ _ _ _ (by omega)]
      have e : readW s.mem (env.heapStart + 2 * env.hsz) = env.heapStart := by
        simpa [getBlkp, hdr] using hnext
      rw [e]
      unfold isallocOf ALLOC_BIT
      omega
    rw [hr]
    rw [hbrk4] at hne hap hbp hz
    simp only [hbrk4]
    simp only [if_neg hne, mm_free, if_neg hap, hbp, if_neg hz]
  · left
    rw [hr]
    simp only [if_true]
theorem mallocLoop_fresh (env : Env) (s : State) (nunits k : Nat) (h : Sane env)
    (hs : Fresh env s) :
    ∃ p s', mallocLoop env nunits (k + 1) s s.base = some (p, s')
      ∧ ((p = NULL ∧ Fresh env s')
        ∨ (p = mm_payload env (hdr env env.heapStart 2) ∧ Stable env s')) := by
  have hm := morecore_fresh env s nunits h hs
  obtain ⟨h8, hpos, hB, hroom⟩ := h
  obtain ⟨hbase, hfreep, hbrk, halloc, hnext⟩ := hs
  unfold mallocLoop
  rw [hbase, if_neg (by rw [fits_allocated _ _ _ halloc]; decide), if_pos hnext]
  rcases hm with hm | ⟨incr, v, hm⟩
  · rw [hm]
    simp only [if_true]
    exact ⟨_, _, rfl, Or.inl ⟨rfl, hbase, hfreep, hbrk, halloc, hnext⟩⟩
  · have hadd : ¬ hdr env env.heapStart 2 = NULL := by
      unfold hdr NULL
      omega
    rw [hm]
    simp only [if_neg hadd, hbase]
    refine ⟨_, _, rfl, Or.inr ⟨rfl, rfl, rfl, ?_, ?_, ?_⟩⟩
    · show getIsalloc _ env.heapStart = 1
      unfold getIsalloc
      simp only [hdr]
      rw [readW_setBlkp_apart _ _ _ _ (by omega), readW_setBlkp_apart _ _ _ _ (by omega),
        readW_setBlkp_apart _ _ _ _ (by omega), readW_setBlkp_apart _ _ _ _ (by omega),
        readW_setIsalloc_apart _ _ _ _ (by omega), readW_setBlksize_apart _ _ _ _ (by omega)]
      exact halloc
    · show getBlkp _ (hdr env env.heapStart 2) = hdr env env.heapStart 2
      unfold getBlkp
      simp only [hdr]
      rw [readW_setBlkp_apart _ _ _ _ (by omega), readW_setBlkp_same _ _ _ (by omega)]
    · show getBlkp _ (hdr env env.heapStart 4) = env.heapStart
      unfold getBlkp
      simp only [hdr]
      rw [readW_setBlkp_apart _ _ _ _ (by omega), readW_setBlkp_apart _ _ _ _ (by omega)]
      have e : env.heapStart + 2 * env.hsz + 2 * env.hsz = env.heapStart + 4 * env.hsz := by omega
      rw [e, readW_setBlkp_same _ _ _ (by omega)]
theorem mm_block_payload (env : Env) (b : Nat) : mm_block env (mm_payload env b) = b := by
  unfold mm_block mm_payload hdr
  omega

theorem memcpy_self (m : Mem) (p n : Nat) : memcpy m p p n = m := by
  funext x
  unfold memcpy
  split
  · congr 1
    omega
  · rfl

theorem stable_freep_ne (env : Env) (s : State) (h : Sane env) (hs : Stable env s) :
    s.freep ≠ NULL := by
  obtain ⟨h8, hpos, hB, hroom⟩ := h
  rw [hs.2.1]
  unfold hdr NULL
  omega

theorem mm_malloc_fresh (env : Env) (s : State) (n k : Nat) (h : Sane env) (hs : Fresh env s) :
    ∃ p s', mm_malloc env (k + 1) s n = some (p, s')
      ∧ ((p = NULL ∧ Fresh env s')
        ∨ (p = mm_payload env (hdr env env.heapStart 2) ∧ Stable env s')) := by
  have hf : s.freep ≠ NULL := by
    rw [hs.2.1]
    unfold NULL
    exact Nat.pos_iff_ne_zero.1 h.2.1
  unfold mm_malloc
  simp only [if_neg hf]
  exact mallocLoop_fresh env s _ k h hs

theorem mm_malloc_stable (env : Env) (s : State) (n k : Nat) (h : Sane env) (hs : Stable env s)
    (hn : mm_units env n ≤ env.heapStart + 2 * env.hsz) :
    ∃ s', mm_malloc env (k + 2) s n = some (mm_payload env (hdr env env.heapStart 2), s')
      ∧ Stable env s' := by
  unfold mm_malloc
  simp only [if_neg (stable_freep_ne env s h hs)]
  exact mallocLoop_stable env s _ k h hs hn

theorem stable_not_allocated (env : Env) (s : State) (h : Sane env) (hs : Stable env s) :
    ¬ getIsalloc s.mem (hdr env env.heapStart 2) = 1 := by
  obtain ⟨h8, hpos, hB, hroom⟩ := h
  have e : readW s.mem (hdr env env.heapStart 2) = hdr env env.heapStart 2 := hs.2.2.2.1
  unfold getIsalloc
  rw [e]
  unfold isallocOf ALLOC_BIT hdr
  omega

theorem mm_free_stable (env : Env) (s : State) (ap : Nat) (h : Sane env) (hs : Stable env s)
    (hap : ap = NULL ∨ ap = mm_payload env (hdr env env.heapStart 2)) :
    Stable env (mm_free env s ap) := by
  rcases hap with hap | hap
  · unfold mm_free
    rw [if_pos hap]
    exact hs
  · have hne : ¬ ap = NULL := by
      obtain ⟨h8, hpos, hB, hroom⟩ := h
      rw [hap]
      unfold mm_payload hdr NULL
      omega
    unfold mm_free
    rw [if_neg hne]
    simp only [hap, mm_block_payload, if_neg (stable_not_allocated env s h hs)]
    exact ⟨hs.1, rfl, hs.2.2⟩

theorem mm_realloc_stable (env : Env) (s : State) (n k : Nat) (h : Sane env)
    (hs : Stable env s) (hn : mm_units env n ≤ env.heapStart + 2 * env.hsz) :
    ∃ s', mm_realloc env (k + 2) s (mm_payload env (hdr env env.heapStart 2)) n
        = some (mm_payload env (hdr env env.heapStart 2), s')
      ∧ Stable env s' := by
  have hne : ¬ mm_payload env (hdr env env.heapStart 2) = NULL := by
    obtain ⟨h8, hpos, hB, hroom⟩ := h
    unfold mm_payload hdr NULL
    omega
  unfold mm_realloc
  rw [if_neg hne]
  simp only []
  split
  · exact ⟨s, rfl, hs⟩
  · obtain ⟨s1, hrun, hs1⟩ := mm_malloc_stable env s n k h hs hn
    rw [hrun]
    simp only [if_neg hne, memcpy_self]
    exact ⟨_, rfl, mm_free_stable env _ _ h hs1 (Or.inr rfl)⟩

theorem listWalk_stable (env : Env) (s : State) (k : Nat) (h : Sane env) (hs : Stable env s) :
    listWalk env s (k + 2) s.base
      = some [s.base, mm_block env (mm_payload env (hdr env env.heapStart 2))] := by
  obtain ⟨h8, hpos, hB, hroom⟩ := h
  obtain ⟨hbase, hfreep, halloc, hnext, hnext2⟩ := hs
  have e : hdr env (hdr env env.heapStart 2) 2 = hdr env env.heapStart 4 := by
    unfold hdr
    omega
  unfold listWalk
  rw [hbase, hnext, if_neg (by unfold hdr; omega)]
  unfold listWalk
  rw [e, hnext2, if_pos hbase.symm, mm_block_payload]
  rfl

theorem step_tracked (env : Env) (k : Nat) (h : Sane env) (ptrs : List Nat) (s : State)
    (c : Call) (ht : Tracked env ptrs s) (ha : argOk ptrs c = true)
    (hz : sizeOk env c = true) :
    ∃ r, step env (k + 2) s c = some r ∧ Tracked env (r.1 :: ptrs) r.2
      ∧ (r.1 ≠ NULL → Stable env r.2 ∧ r.1 = mm_payload env (hdr env env.heapStart 2)) := by
  cases c with
  | malloc n =>
    have hn : mm_units env n ≤ env.heapStart + 2 * env.hsz := by
      simpa [sizeOk] using hz
    rcases ht with ⟨hf, hp⟩ | ⟨hs, hp⟩
    · obtain ⟨p, s', hrun, hres⟩ := mm_malloc_fresh env s n (k + 1) h hf
      refine ⟨(p, s'), hrun, ?_, ?_⟩
      · rcases hres with ⟨hp0, hf'⟩ | ⟨hp1, hs'⟩
        · left
          refine ⟨hf', ?_⟩
          intro q hq
          rcases List.mem_cons.1 hq with hq | hq
          · rw [hq]
            exact hp0
          · exact hp q hq
        · right
          refine ⟨hs', ?_⟩
          intro q hq
          rcases List.mem_cons.1 hq with hq | hq
          · right
            rw [hq]
            exact hp1
          · left
            exact hp q hq
      · intro hne
        rcases hres with ⟨hp0, _⟩ | ⟨hp1, hs'⟩
        · exact absurd hp0 hne
        · exact ⟨hs', hp1⟩
    · obtain ⟨s', hrun, hs'⟩ := mm_malloc_stable env s n k h hs hn
      refine ⟨(_, s'), hrun, Or.inr ⟨hs', ?_⟩, fun _ => ⟨hs', rfl⟩⟩
      intro q hq
      rcases List.mem_cons.1 hq with hq | hq
      · right
        exact hq
      · exact hp q hq
  | free ap =>
    have hap : ap = NULL ∨ ap ∈ ptrs := by
      simpa [argOk] using ha
    refine ⟨(NULL, mm_free env s ap), rfl, ?_, fun hne => absurd rfl hne⟩
    rcases ht with ⟨hf, hp⟩ | ⟨hs, hp⟩
    · left
      have hap0 : ap = NULL := by
        rcases hap with hap | hap
        · exact hap
        · exact hp ap hap
      have e : mm_free env s ap = s := by
        unfold mm_free
        rw [if_pos hap0]
      refine ⟨by rw [e]; exact hf, ?_⟩
      intro q hq
      rcases List.mem_cons.1 hq with hq | hq
      · exact hq
      · exact hp q hq
    · right
      have hap1 : ap = NULL ∨ ap = mm_payload env (hdr env env.heapStart 2) := by
        rcases hap with hap | hap
        · exact Or.inl hap
        · exact hp ap hap
      refine ⟨mm_free_stable env s ap h hs hap1, ?_⟩
      intro q hq
      rcases List.mem_cons.1 hq with hq | hq
      · exact Or.inl hq
      · exact hp q hq
  | realloc ap n =>
    have hn : mm_units env n ≤ env.heapStart + 2 * env.hsz := by
      simpa [sizeOk] using hz
    have hap : ap = NULL ∨ ap ∈ ptrs := by
      simpa [argOk] using ha
    have hnull : ap = NULL → step env (k + 2) s (Call.realloc ap n)
        = step env (k + 2) s (Call.malloc n) := by
      intro h0
      show mm_realloc env (k + 2) s ap n = mm_malloc env (k + 2) s n
      unfold mm_realloc
      rw [if_pos h0]
    rcases ht with ⟨hf, hp⟩ | ⟨hs, hp⟩
    · have hap0 : ap = NULL := by
        rcases hap with hap | hap
        · exact hap
        · exact hp ap hap
      rw [hnull hap0]
      obtain ⟨p, s', hrun, hres⟩ := mm_malloc_fresh env s n (k + 1) h hf
      refine ⟨(p, s'), hrun, ?_, ?_⟩
      · rcases hres with ⟨hp0, hf'⟩ | ⟨hp1, hs'⟩
        · left
          refine ⟨hf', ?_⟩
          intro q hq
          rcases List.mem_cons.1 hq with hq | hq
          · rw [hq]
            exact hp0
          · exact hp q hq
        · right
          refine ⟨hs', ?_⟩
          intro q hq
          rcases List.mem_cons.1 hq with hq | hq
          · right
            rw [hq]
            exact hp1
          · left
            exact hp q hq
      · intro hne
        rcases hres with ⟨hp0, _⟩ | ⟨hp1, hs'⟩
        · exact absurd hp0 hne
        · exact ⟨hs', hp1⟩
    · have hap1 : ap = NULL ∨ ap = mm_payload env (hdr env env.heapStart 2) := by
        rcases hap with hap | hap
        · exact Or.inl hap
        · exact hp ap hap
      have hres : ∃ s', step env (k + 2) s (Call.realloc ap n)
          = some (mm_payload env (hdr env env.heapStart 2), s') ∧ Stable env s' := by
        rcases hap1 with h0 | h1
        · rw [hnull h0]
          exact mm_malloc_stable env s n k h hs hn
        · rw [h1]
          exact mm_realloc_stable env s n k h hs hn
      obtain ⟨s', hrun, hs'⟩ := hres
      refine ⟨(_, s'), hrun, Or.inr ⟨hs', ?_⟩, fun _ => ⟨hs', rfl⟩⟩
      intro q hq
      rcases List.mem_cons.1 hq with hq | hq
      · right
        exact hq
      · exact hp q hq

theorem run_tracked (env : Env) (k : Nat) (h : Sane env) :
    ∀ (cs : List Call) (ptrs : List Nat) (s : State), Tracked env ptrs s →
      wellUsed env (k + 2) ptrs s cs = true →
      ∃ tr, run env (k + 2) s cs = some tr
        ∧ ∀ r ∈ tr, r.1 ≠ NULL →
            Stable env r.2 ∧ r.1 = mm_payload env (hdr env env.heapStart 2) := by
  intro cs
  induction cs with
  | nil =>
    intro ptrs s _ _
    exact ⟨[], rfl, fun r hr => absurd hr (List.not_mem_nil r)⟩
  | cons c cs ih =>
    intro ptrs s ht hw
    unfold wellUsed at hw
    simp only [Bool.and_eq_true] at hw
    obtain ⟨⟨ha, hz⟩, hrest⟩ := hw
    obtain ⟨r, hstep, ht', hres⟩ := step_tracked env k h ptrs s c ht ha hz
    rw [hstep] at hrest
    obtain ⟨tr, hrun, hall⟩ := ih (r.1 :: ptrs) r.2 ht' hrest
    refine ⟨r :: tr, ?_, ?_⟩
    · unfold run
      rw [hstep]
      simp only [hrun, Option.map_some']
    · intro x hx hne
      rcases List.mem_cons.1 hx with hx | hx
      · rw [hx]
        exact hres (by rw [← hx]; exact hne)
      · exact hall x hx hne

/-! ## The first calls after `mm_init`

In `env64` the sentinel is at `0x7f0000000010`, a unit is `0x20` bytes, and the first
growth obtains the region starting at `0x7f0000000090`. -/

set_option maxRecDepth 100000

/-- C1 (the code breaks it): after `mm_init`, two calls `mm_malloc(8)` in a row, with no
`mm_free` in between, both return the same non-NULL address `0x7f00000000b0`, so the two
payload ranges coincide. -/
theorem malloc_twice_same_block :
    ∃ r ∈ mallocSeq env64 10 (mm_init env64 st0) [8, 8],
      r.1 = [0x7f00000000b0, 0x7f00000000b0] := by
  decide

/-- C2 (the code breaks it): the first `mm_malloc(8)` after `mm_init` returns the non-NULL
address `0x7f00000000b0`; the control word at `mm_block(p) = 0x7f0000000050` then holds the
link value `0x7f0000000050` stored last by `prevp[2].blkp = add`, whose `isalloc` bit is 0. -/
theorem malloc_header_not_allocated :
    ∃ r ∈ mm_malloc env64 10 (mm_init env64 st0) 8,
      r.1 = 0x7f00000000b0 ∧ mm_block env64 r.1 = 0x7f0000000050
        ∧ hdr env64 (mm_init env64 st0).base 2 = mm_block env64 r.1
        ∧ getBlkp r.2.mem (mm_block env64 r.1) = 0x7f0000000050
        ∧ getIsalloc r.2.mem (mm_block env64 r.1) = 0 := by
  decide

/-- C3 (the code breaks it): `mm_malloc` never splits.  In the heap left by
`mm_init; mm_malloc(8)` the walk of a second `mm_malloc(8)` (5 units) stops at the block at
`0x7f0000000050`, whose control word says free with `blksize = 0x7f0000000050 > 5`; after
the call that word still records the full size and `isalloc = 0`, no control word was
written 5 units further on (it reads 0), and the list holds the sentinel and that one block.
In `heapOneFree` the walk of `mm_malloc(8)` stops at the free block of 12 units; after the
call its header records 5 units, allocated, the word 5 units further on is still 0 (no
remainder of 7 units was formatted) and the list holds the sentinel and the block handed
out. -/
theorem malloc_does_not_split :
    (∃ r1 ∈ mm_malloc env64 10 (mm_init env64 st0) 8, ∃ r2 ∈ mm_malloc env64 10 r1.2 8,
      mm_units env64 8 = 5
        ∧ walkBlocks env64 5 10 r1.2 r1.2.base = some [0x7f0000000010, 0x7f0000000050]
        ∧ getIsalloc r1.2.mem 0x7f0000000050 = 0
        ∧ getBlksize r1.2.mem 0x7f0000000050 = 0x7f0000000050
        ∧ r2.1 = mm_payload env64 0x7f0000000050
        ∧ getBlksize r2.2.mem 0x7f0000000050 = 0x7f0000000050
        ∧ getIsalloc r2.2.mem 0x7f0000000050 = 0
        ∧ readW r2.2.mem (hdr env64 0x7f0000000050 5) = 0
        ∧ listWalk env64 r2.2 10 r2.2.base = some [0x7f0000000010, 0x7f0000000050])
    ∧ walkBlocks env64 5 10 heapOneFree heapOneFree.base
        = some [heapOneFree.base, hdr env64 heapOneFree.base 4]
    ∧ getIsalloc heapOneFree.mem (hdr env64 heapOneFree.base 4) = 0
    ∧ getBlksize heapOneFree.mem (hdr env64 heapOneFree.base 4) = 12
    ∧ ∃ r ∈ mm_malloc env64 10 heapOneFree 8,
        r.1 = mm_payload env64 (hdr env64 heapOneFree.base 4)
          ∧ getBlksize r.2.mem (hdr env64 heapOneFree.base 4) = 5
          ∧ getIsalloc r.2.mem (hdr env64 heapOneFree.base 4) = 1
          ∧ readW r.2.mem (hdr env64 heapOneFree.base 9) = 0
          ∧ listWalk env64 r.2 10 r.2.base
              = some [heapOneFree.base, hdr env64 heapOneFree.base 4] := by
  decide

/-- C4 (the code breaks it): in `heapFreeThenAllocated` the free block `A` (5 units, on the
list) ends where the allocated block `B` (5 units) starts.  After `mm_free(mm_payload(B))`
both control words say free and both still record 5 units: the two adjacent free blocks are
not merged into one of 10 units. -/
theorem free_does_not_coalesce :
    hdr env64 (hdr env64 heapFreeThenAllocated.base 4) 5 = hdr env64 heapFreeThenAllocated.base 9
      ∧ listWalk env64 heapFreeThenAllocated 10 heapFreeThenAllocated.base
          = some [heapFreeThenAllocated.base, hdr env64 heapFreeThenAllocated.base 4]
      ∧ getBlksize heapFreeThenAllocated.mem (hdr env64 heapFreeThenAllocated.base 4) = 5
      ∧ getIsalloc heapFreeThenAllocated.mem (hdr env64 heapFreeThenAllocated.base 4) = 0
      ∧ getBlksize heapFreeThenAllocated.mem (hdr env64 heapFreeThenAllocated.base 9) = 5
      ∧ getIsalloc heapFreeThenAllocated.mem (hdr env64 heapFreeThenAllocated.base 9) = 1
      ∧ getBlksize (mm_free env64 heapFreeThenAllocated
            (mm_payload env64 (hdr env64 heapFreeThenAllocated.base 9))).mem
          (hdr env64 heapFreeThenAllocated.base 4) = 5
      ∧ getIsalloc (mm_free env64 heapFreeThenAllocated
            (mm_payload env64 (hdr env64 heapFreeThenAllocated.base 9))).mem
          (hdr env64 heapFreeThenAllocated.base 4) = 0
      ∧ getBlksize (mm_free env64 heapFreeThenAllocated
            (mm_payload env64 (hdr env64 heapFreeThenAllocated.base 9))).mem
          (hdr env64 heapFreeThenAllocated.base 9) = 5
      ∧ getIsalloc (mm_free env64 heapFreeThenAllocated
            (mm_payload env64 (hdr env64 heapFreeThenAllocated.base 9))).mem
          (hdr env64 heapFreeThenAllocated.base 9) = 0 := by
  decide

/-- C5 is false as stated: in `heapOneAllocated` the block at `base + 4` is allocated and not
on the list; after `mm_free` of its payload the header is marked free, but the sentinel's
next slot still points to the sentinel and the list still holds the sentinel alone. -/
theorem free_does_not_link :
    getIsalloc heapOneAllocated.mem (hdr env64 heapOneAllocated.base 4) = 1
      ∧ listWalk env64 heapOneAllocated 10 heapOneAllocated.base = some [heapOneAllocated.base]
      ∧ getIsalloc (mm_free env64 heapOneAllocated
            (mm_payload env64 (hdr env64 heapOneAllocated.base 4))).mem
          (hdr env64 heapOneAllocated.base 4) = 0
      ∧ getBlkp (mm_free env64 heapOneAllocated
            (mm_payload env64 (hdr env64 heapOneAllocated.base 4))).mem
          (hdr env64 heapOneAllocated.base 2) = heapOneAllocated.base
      ∧ heapOneAllocated.base ≠ hdr env64 heapOneAllocated.base 4
      ∧ listWalk env64 (mm_free env64 heapOneAllocated
            (mm_payload env64 (hdr env64 heapOneAllocated.base 4))) 10 heapOneAllocated.base
          = some [heapOneAllocated.base] := by
  decide

/-- C6 is false as stated: after the first `mm_malloc(8)` following `mm_init`, the walk along
next links from the sentinel visits `mm_block(p)`. -/
theorem malloc_block_on_list :
    ∃ r ∈ mm_malloc env64 10 (mm_init env64 st0) 8,
      r.1 ≠ NULL ∧ ∃ l ∈ listWalk env64 r.2 10 r.2.base, mm_block env64 r.1 ∈ l := by
  decide

/-- C7 (the code breaks it): for the first `mm_malloc(8)` after `mm_init`, `mem_sbrk` returns
the region start `r = 0x7f0000000090` for the 128 units requested, yet `morecore` returns
`r - 2` units, `mm_malloc` returns `r + 1` unit instead of `r + 3` units, and the word at `r`
ends up holding the link to `base`, not `blksize = 128`. -/
theorem grow_hands_out_wrong_block :
    mm_units env64 8 = 5 ∧ env64.pagesize / env64.hsz = 128
      ∧ (mem_sbrk env64 (mm_init env64 st0).brk (mm_bytes env64 128)).1 = 0x7f0000000090
      ∧ (morecore env64 (mm_init env64 st0) 5).1 = 0x7f0000000050
      ∧ hdr env64 0x7f0000000090 3 = 0x7f00000000f0
      ∧ ∃ r ∈ mm_malloc env64 10 (mm_init env64 st0) 8,
          r.1 = 0x7f00000000b0 ∧ getBlkp r.2.mem 0x7f0000000090 = 0x7f0000000010
            ∧ getBlksize r.2.mem 0x7f0000000090 ≠ 128 := by
  decide

/-- C9 (the code breaks it): with the provider's region at `0x10000`, `ap = mm_malloc(2100000)`
is followed by two stores of the byte 171, at `ap` and at `ap + 2099080`.  Then
`mm_realloc(ap, 2200000)` returns a new non-NULL address `q`; the byte at `q` is 171, but the
byte at `q + 2099080` is 0: only the first 2099072 bytes were copied. -/
theorem realloc_grow_loses_bytes :
    ∃ r1 ∈ mm_malloc envLow 10 (mm_init envLow st0) 2100000,
      ∃ r2 ∈ mm_realloc envLow 10
          { r1.2 with mem := storeByte (storeByte r1.2.mem r1.1 171) (r1.1 + 2099080) 171 }
          r1.1 2200000,
        r1.1 = 65696 ∧ r2.1 = 2165824
          ∧ storeByte (storeByte r1.2.mem r1.1 171) (r1.1 + 2099080) 171 r1.1 = 171
          ∧ storeByte (storeByte r1.2.mem r1.1 171) (r1.1 + 2099080) 171 (r1.1 + 2099080) = 171
          ∧ getBlksize r1.2.mem (mm_block envLow r1.1) = 65600
          ∧ mm_bytes envLow (65600 - 4) = 2099072
          ∧ r2.2.mem r2.1 = 171
          ∧ r2.2.mem (r2.1 + 2099080) = 0 := by
  decide

/-- C10 (the code breaks it): `mm_realloc` returns the same address for requests beyond the
usable capacity `mm_bytes(blksize - 4)`.  In `heapOneAllocated` the block of 5 units has 32
usable bytes and `mm_realloc(ap, 33)` returns `ap`; after `mm_init; ap = mm_malloc(8)` the
header at `mm_block(ap)` records `blksize = 0x7f0000000050`, the usable capacity is
4468415255284096 bytes and `mm_realloc(ap, 4468415255284097)` returns `ap`. -/
theorem realloc_in_place_beyond_capacity :
    (getBlksize heapOneAllocated.mem (hdr env64 heapOneAllocated.base 4) = 5
      ∧ mm_bytes env64 (5 - 4) = 32
      ∧ ∃ r ∈ mm_realloc env64 10 heapOneAllocated
          (mm_payload env64 (hdr env64 heapOneAllocated.base 4)) 33,
          r.1 = mm_payload env64 (hdr env64 heapOneAllocated.base 4))
    ∧ ∃ r1 ∈ mm_malloc env64 10 (mm_init env64 st0) 8,
        ∃ r2 ∈ mm_realloc env64 10 r1.2 r1.1 4468415255284097,
          r1.1 ≠ NULL ∧ getBlksize r1.2.mem (mm_block env64 r1.1) = 0x7f0000000050
            ∧ mm_bytes env64 (0x7f0000000050 - 4) = 4468415255284096
            ∧ r2.1 = r1.1 := by
  decide

/-! ## `mm_realloc` in place, `NULL` arguments and the frame of `mm_free` -/

theorem readW_lt (m : Mem) (a : Nat) : readW m a < 2 ^ 64 := by
  unfold readW
  have h0 := Nat.mod_lt (m a) (show 256 > 0 by decide)
  have h1 := Nat.mod_lt (m (a + 1)) (show 256 > 0 by decide)
  have h2 := Nat.mod_lt (m (a + 2)) (show 256 > 0 by decide)
  have h3 := Nat.mod_lt (m (a + 3)) (show 256 > 0 by decide)
  have h4 := Nat.mod_lt (m (a + 4)) (show 256 > 0 by decide)
  have h5 := Nat.mod_lt (m (a + 5)) (show 256 > 0 by decide)
  have h6 := Nat.mod_lt (m (a + 6)) (show 256 > 0 by decide)
  have h7 := Nat.mod_lt (m (a + 7)) (show 256 > 0 by decide)
  norm_num
  omega

/-- C11: for every non-NULL `ap` whose header records `blksize = b` with `b >= 4` and
`b * sizeof(Header) <= SIZE_MAX`, and every `newsize` with `0 < newsize <= mm_bytes(b - 4)`,
`mm_realloc(ap, newsize)` returns `ap` and leaves the whole state as it was: `base`, `freep`,
every byte of memory, `errno`, and the provider's break (no provider call). -/
theorem mm_realloc_within_capacity (env : Env) (s : State) (ap newsize fuel : Nat)
    (hap : ap ≠ NULL) (hb : 4 ≤ getBlksize s.mem (mm_block env ap))
    (hmax : getBlksize s.mem (mm_block env ap) * env.hsz < 2 ^ 64)
    (hpos : 0 < newsize)
    (hn : newsize ≤ mm_bytes env (getBlksize s.mem (mm_block env ap) - 4)) :
    mm_realloc env fuel s ap newsize = some (ap, s) := by
  have h1 : mm_bytes env (getBlksize s.mem (mm_block env ap) - 4)
      ≤ mm_bytes env (getBlksize s.mem (mm_block env ap)) := by
    unfold mm_bytes SIZE_MOD
    rw [Nat.mod_eq_of_lt hmax]
    exact le_trans (Nat.mod_le _ _) (Nat.mul_le_mul_right _ (Nat.sub_le _ _))
  have _ := hb
  unfold mm_realloc
  rw [if_neg hap]
  simp only []
  rw [if_pos ⟨hpos, le_trans hn h1⟩]

/-- Witness for C11: the allocated block of 5 units in `heapOneAllocated` and a request of
32 bytes, its whole usable capacity. -/
theorem mm_realloc_within_capacity_witness :
    mm_realloc env64 10 heapOneAllocated (mm_payload env64 (hdr env64 heapOneAllocated.base 4)) 32
      = some (mm_payload env64 (hdr env64 heapOneAllocated.base 4), heapOneAllocated) :=
  mm_realloc_within_capacity env64 heapOneAllocated
    (mm_payload env64 (hdr env64 heapOneAllocated.base 4)) 32 10
    (by decide) (by decide) (by decide) (by decide) (by decide)

/-- C12: for every state and every size `n`, `mm_realloc(NULL, n)` gives the same returned
pointer and the same final state (`base`, `freep`, memory, the provider's break, `errno`) as
`mm_malloc(n)` run from that state, and the one terminates exactly when the other does. -/
theorem mm_realloc_null_is_malloc (env : Env) (fuel : Nat) (s : State) (n : Nat) :
    mm_realloc env fuel s NULL n = mm_malloc env fuel s n := by
  unfold mm_realloc
  rw [if_pos rfl]

/-- C13: for every state, the uninitialized one included, `mm_free(NULL)` returns the state
unchanged: `base`, `freep`, every byte of memory, the break and `errno`. -/
theorem mm_free_null (env : Env) (s : State) : mm_free env s NULL = s := by
  unfold mm_free
  rw [if_pos rfl]

/-- C20: for every non-NULL `ap`, `mm_free(ap)` changes at most the control word at
`mm_block(ap) = ap - 3` units and `freep`: afterwards that word is the old word with the
`isalloc` bit cleared (its `blksize` bits unchanged), `freep` is that address, and `base`,
the break, `errno` and every word stored apart from that control word (link slots, footers,
the headers of the neighbouring blocks) are as before the call. -/
theorem mm_free_frame (env : Env) (s : State) (ap : Nat) (hap : ap ≠ NULL) :
    readW (mm_free env s ap).mem (mm_block env ap) = blksizeOf (readW s.mem (mm_block env ap))
      ∧ (mm_free env s ap).freep = mm_block env ap
      ∧ (mm_free env s ap).base = s.base
      ∧ (mm_free env s ap).brk = s.brk
      ∧ (mm_free env s ap).errno = s.errno
      ∧ ∀ a, (a + 8 ≤ mm_block env ap ∨ mm_block env ap + 8 ≤ a) →
          readW (mm_free env s ap).mem a = readW s.mem a := by
  have e : mm_free env s ap =
      { s with
        mem := (if getIsalloc s.mem (mm_block env ap) = 1
          then setIsalloc s.mem (mm_block env ap) 0 else s.mem),
        freep := mm_block env ap } := by
    unfold mm_free
    rw [if_neg hap]
  rw [e]
  refine ⟨?_, rfl, rfl, rfl, rfl, ?_⟩
  · show readW (if getIsalloc s.mem (mm_block env ap) = 1
        then setIsalloc s.mem (mm_block env ap) 0 else s.mem) (mm_block env ap)
        = blksizeOf (readW s.mem (mm_block env ap))
    split
    · rw [readW_setIsalloc_same]
      unfold getBlksize
      simp
    · rename_i h1
      have hlt := readW_lt s.mem (mm_block env ap)
      unfold getIsalloc isallocOf ALLOC_BIT at h1
      unfold blksizeOf ALLOC_BIT
      omega
  · intro a ha
    show readW (if getIsalloc s.mem (mm_block env ap) = 1
        then setIsalloc s.mem (mm_block env ap) 0 else s.mem) a = readW s.mem a
    split
    · exact readW_setIsalloc_apart _ _ _ _ ha
    · rfl

/-- Witness for C20: the allocated block of `heapOneAllocated`. -/
theorem mm_free_frame_witness :
    readW (mm_free env64 heapOneAllocated
          (mm_payload env64 (hdr env64 heapOneAllocated.base 4))).mem
        (mm_block env64 (mm_payload env64 (hdr env64 heapOneAllocated.base 4)))
        = blksizeOf (readW heapOneAllocated.mem
            (mm_block env64 (mm_payload env64 (hdr env64 heapOneAllocated.base 4))))
      ∧ (mm_free env64 heapOneAllocated
          (mm_payload env64 (hdr env64 heapOneAllocated.base 4))).freep
        = mm_block env64 (mm_payload env64 (hdr env64 heapOneAllocated.base 4))
      ∧ (mm_free env64 heapOneAllocated
          (mm_payload env64 (hdr env64 heapOneAllocated.base 4))).base = heapOneAllocated.base
      ∧ (mm_free env64 heapOneAllocated
          (mm_payload env64 (hdr env64 heapOneAllocated.base 4))).brk = heapOneAllocated.brk
      ∧ (mm_free env64 heapOneAllocated
          (mm_payload env64 (hdr env64 heapOneAllocated.base 4))).errno = heapOneAllocated.errno
      ∧ ∀ a, (a + 8 ≤ mm_block env64 (mm_payload env64 (hdr env64 heapOneAllocated.base 4))
            ∨ mm_block env64 (mm_payload env64 (hdr env64 heapOneAllocated.base 4)) + 8 ≤ a) →
          readW (mm_free env64 heapOneAllocated
            (mm_payload env64 (hdr env64 heapOneAllocated.base 4))).mem a
            = readW heapOneAllocated.mem a :=
  mm_free_frame env64 heapOneAllocated (mm_payload env64 (hdr env64 heapOneAllocated.base 4))
    (by decide)

/-! ## Unit arithmetic -/

theorem mm_units_exact (env : Env) (n : Nat) (hH : 2 ≤ env.hsz)
    (hn : n + env.hsz - 1 < 2 ^ 64) :
    mm_units env n = (n + env.hsz - 1) / env.hsz + 4
      ∧ n ≤ (n + env.hsz - 1) / env.hsz * env.hsz
      ∧ (n + env.hsz - 1) / env.hsz * env.hsz < n + env.hsz := by
  have hpos : 0 < env.hsz := by omega
  have hq : (n + env.hsz - 1) / env.hsz ≤ (n + env.hsz - 1) / 2 :=
    Nat.div_le_div_left hH (by decide)
  have hdm := Nat.div_add_mod (n + env.hsz - 1) env.hsz
  have hml := Nat.mod_lt (n + env.hsz - 1) hpos
  have hc : env.hsz * ((n + env.hsz - 1) / env.hsz)
      = (n + env.hsz - 1) / env.hsz * env.hsz := Nat.mul_comm _ _
  refine ⟨?_, ?_, ?_⟩
  · unfold mm_units SIZE_MOD
    rw [Nat.mod_eq_of_lt hn]
    apply Nat.mod_eq_of_lt
    omega
  · omega
  · omega

theorem mm_bytes_le (env : Env) (k : Nat) : mm_bytes env k ≤ k * env.hsz := by
  unfold mm_bytes
  exact Nat.mod_le _ _

/-- C18: for every byte count `n` with `n + sizeof(Header) - 1 <= SIZE_MAX`, `mm_units(n) - 4`
is the ceiling of `n / sizeof(Header)` (the least `k` with `k * sizeof(Header) >= n`), and
`mm_units(n)` is the least `u >= 4` with `mm_bytes(u - 4) >= n`. -/
theorem mm_units_is_ceiling_plus_four (env : Env) (n : Nat) (hH : 2 ≤ env.hsz)
    (hn : n + env.hsz - 1 < 2 ^ 64) :
    (n ≤ (mm_units env n - 4) * env.hsz ∧ ∀ k, n ≤ k * env.hsz → mm_units env n - 4 ≤ k)
      ∧ 4 ≤ mm_units env n
      ∧ n ≤ mm_bytes env (mm_units env n - 4)
      ∧ ∀ u, 4 ≤ u → n ≤ mm_bytes env (u - 4) → mm_units env n ≤ u := by
  obtain ⟨hu, hlo, hhi⟩ := mm_units_exact env n hH hn
  have hsub : mm_units env n - 4 = (n + env.hsz - 1) / env.hsz := by
    rw [hu]
    exact Nat.add_sub_cancel _ _
  have hleast : ∀ k, n ≤ k * env.hsz → (n + env.hsz - 1) / env.hsz ≤ k := by
    intro k hk
    by_contra hlt
    have h1 : (k + 1) * env.hsz ≤ (n + env.hsz - 1) / env.hsz * env.hsz :=
      Nat.mul_le_mul_right _ (by omega)
    rw [Nat.add_mul] at h1
    omega
  refine ⟨⟨?_, ?_⟩, ?_, ?_, ?_⟩
  · rw [hsub]
    exact hlo
  · intro k hk
    rw [hsub]
    exact hleast k hk
  · omega
  · rw [hsub]
    unfold mm_bytes SIZE_MOD
    rw [Nat.mod_eq_of_lt (by omega)]
    exact hlo
  · intro u h4 hge
    have := hleast (u - 4) (le_trans hge (mm_bytes_le env (u - 4)))
    omega

/-- Witness for C18: a request of 100 bytes with `sizeof(Header) = 32`. -/
theorem mm_units_is_ceiling_plus_four_witness :
    (100 ≤ (mm_units env64 100 - 4) * env64.hsz
        ∧ ∀ k, 100 ≤ k * env64.hsz → mm_units env64 100 - 4 ≤ k)
      ∧ 4 ≤ mm_units env64 100
      ∧ 100 ≤ mm_bytes env64 (mm_units env64 100 - 4)
      ∧ ∀ u, 4 ≤ u → 100 ≤ mm_bytes env64 (u - 4) → mm_units env64 100 ≤ u :=
  mm_units_is_ceiling_plus_four env64 100 (by decide) (by decide)

/-- C19 is false as stated: for `n = SIZE_MAX` and `sizeof(Header) = 32` the sum in `mm_units`
wraps to 30, so `mm_units(n) = 4` and `mm_bytes(mm_units(n) - 4) = 0 < n`. -/
theorem mm_units_wraps :
    (2 ^ 64 - 1 + env64.hsz - 1) % SIZE_MOD = 30
      ∧ mm_units env64 (2 ^ 64 - 1) = 4
      ∧ mm_bytes env64 (mm_units env64 (2 ^ 64 - 1) - 4) = 0
      ∧ ¬ (2 ^ 64 - 1 ≤ mm_bytes env64 (mm_units env64 (2 ^ 64 - 1) - 4)) := by
  decide

/-- C19 (amended): for every `size_t` value `n` for which the sum `n + sizeof(Header) - 1`
does not wrap, the block size computed by `mm_units(n)` leaves room for the request:
`mm_bytes(mm_units(n) - 4) >= n`. -/
theorem mm_units_leaves_room (env : Env) (n : Nat) (hH : 2 ≤ env.hsz)
    (hn : n + env.hsz - 1 < 2 ^ 64) :
    n ≤ mm_bytes env (mm_units env n - 4) := by
  obtain ⟨hu, hlo, hhi⟩ := mm_units_exact env n hH hn
  have hsub : mm_units env n - 4 = (n + env.hsz - 1) / env.hsz := by
    rw [hu]
    exact Nat.add_sub_cancel _ _
  rw [hsub]
  unfold mm_bytes SIZE_MOD
  rw [Nat.mod_eq_of_lt (by omega)]
  exact hlo

/-- Witness for C19 (amended): the largest request for which the sum does not wrap. -/
theorem mm_units_leaves_room_witness :
    2 ^ 64 - 32 ≤ mm_bytes env64 (mm_units env64 (2 ^ 64 - 32) - 4) :=
  mm_units_leaves_room env64 (2 ^ 64 - 32) (by decide) (by decide)

/-! ## Diagnostics, footers and the list after further calls -/

theorem getfreeLoop_spins (env : Env) (m : Mem) (b : Nat) (h1 : getBlkp m b > b)
    (h2 : getBlkp m (hdr env b 2) = b) :
    ∀ (fuel res : Nat), getfreeLoop env m fuel b res = none := by
  intro fuel
  induction fuel with
  | zero =>
    intro res
    rfl
  | succ k ih =>
    intro res
    unfold getfreeLoop
    rw [if_pos h1, h2]
    exact ih _

theorem listWalk_lost (env : Env) (s : State) (x : Nat)
    (h1 : getBlkp s.mem (hdr env s.base 2) = x) (hx : x ≠ s.base)
    (h2 : getBlkp s.mem (hdr env x 2) = 0) (h3 : getBlkp s.mem (hdr env 0 2) = 0)
    (h0 : 0 ≠ s.base) :
    ∀ fuel, listWalk env s fuel s.base = none := by
  have hz : ∀ fuel, listWalk env s fuel 0 = none := by
    intro fuel
    induction fuel with
    | zero => rfl
    | succ k ih =>
      unfold listWalk
      rw [h3, if_neg h0, ih]
      rfl
  have hxw : ∀ fuel, listWalk env s fuel x = none := by
    intro fuel
    cases fuel with
    | zero => rfl
    | succ k =>
      unfold listWalk
      rw [h2, if_neg h0, hz k]
      rfl
  intro fuel
  cases fuel with
  | zero => rfl
  | succ k =>
    unfold listWalk
    rw [h1, if_neg hx, hxw k]
    rfl

/-- C14 (the code breaks it): right after `mm_init` the loop of `mm_getfree` never ends: the
sentinel's control word read as `blkp` is `0x8000000000000004`, above the sentinel's address,
and the sentinel's next slot leads back to the sentinel.  On the heap
`heapFreeThenAllocated`, whose only free block has 5 units (160 bytes), `mm_getfree` returns
288, the bytes of 9 units: the 4 units of the allocated sentinel are counted too. -/
theorem getfree_spins_and_counts_sentinel :
    (∀ fuel, mm_getfree env64 fuel (mm_init env64 st0) = none)
      ∧ getBlkp (mm_init env64 st0).mem (mm_init env64 st0).freep = 0x8000000000000004
      ∧ getIsalloc heapFreeThenAllocated.mem heapFreeThenAllocated.base = 1
      ∧ listWalk env64 heapFreeThenAllocated 10 heapFreeThenAllocated.base
          = some [heapFreeThenAllocated.base, hdr env64 heapFreeThenAllocated.base 4]
      ∧ getBlksize heapFreeThenAllocated.mem (hdr env64 heapFreeThenAllocated.base 4) = 5
      ∧ mm_bytes env64 5 = 160
      ∧ mm_getfree env64 10 heapFreeThenAllocated = some 288 := by
  refine ⟨?_, by decide, by decide, by decide, by decide, by decide, by decide⟩
  intro fuel
  have hne : ¬ (mm_init env64 st0).freep = NULL := by decide
  unfold mm_getfree
  rw [if_neg hne]
  exact getfreeLoop_spins env64 _ _ (by decide) (by decide) fuel _

/-- C15 (the code breaks it): footers are written for the sentinel only.  After `mm_init;
p = mm_malloc(8)` the header at `mm_block(p)` records `blksize = 0x7f0000000050` and the word
at `header + blksize - 1` records `blksize = 0`.  In `heapOneFree`, `mm_malloc(8)` leaves the
header at 5 units, allocated, and the word at `header + 4` at 0.  In `heapOneAllocated`,
where header and footer both say 5 units, allocated, `mm_free` clears `isalloc` in the header
and leaves the footer saying allocated.  (In the first case the footer address lies outside
the provider's region, where the memory holds the zero bytes of `st0`.) -/
theorem footer_not_maintained :
    (∃ r ∈ mm_malloc env64 10 (mm_init env64 st0) 8,
      getBlksize r.2.mem (mm_block env64 r.1) = 0x7f0000000050
        ∧ getBlksize r.2.mem (hdr env64 (mm_block env64 r.1) (0x7f0000000050 - 1)) = 0)
    ∧ (∃ r ∈ mm_malloc env64 10 heapOneFree 8,
      getBlksize r.2.mem (mm_block env64 r.1) = 5
        ∧ getIsalloc r.2.mem (mm_block env64 r.1) = 1
        ∧ getBlksize r.2.mem (hdr env64 (mm_block env64 r.1) (5 - 1)) = 0
        ∧ getIsalloc r.2.mem (hdr env64 (mm_block env64 r.1) (5 - 1)) = 0)
    ∧ getBlksize heapOneAllocated.mem (hdr env64 heapOneAllocated.base 4) = 5
    ∧ getIsalloc heapOneAllocated.mem (hdr env64 heapOneAllocated.base 4) = 1
    ∧ getBlksize heapOneAllocated.mem (hdr env64 (hdr env64 heapOneAllocated.base 4) (5 - 1)) = 5
    ∧ getIsalloc heapOneAllocated.mem (hdr env64 (hdr env64 heapOneAllocated.base 4) (5 - 1)) = 1
    ∧ getBlksize (mm_free env64 heapOneAllocated
          (mm_payload env64 (hdr env64 heapOneAllocated.base 4))).mem
        (hdr env64 heapOneAllocated.base 4) = 5
    ∧ getIsalloc (mm_free env64 heapOneAllocated
          (mm_payload env64 (hdr env64 heapOneAllocated.base 4))).mem
        (hdr env64 heapOneAllocated.base 4) = 0
    ∧ getIsalloc (mm_free env64 heapOneAllocated
          (mm_payload env64 (hdr env64 heapOneAllocated.base 4))).mem
        (hdr env64 (hdr env64 heapOneAllocated.base 4) (5 - 1)) = 1 := by
  decide

/-- C16 (the code breaks it): after `mm_init; mm_malloc(8); mm_malloc(SIZE_MAX - 31);
mm_malloc(8)` in `env64`, where all three calls return non-NULL, and after `mm_init;
mm_malloc(8); mm_malloc(2200000); mm_malloc(8)` in `envLow`, the sentinel's next slot holds
`0x8000000000000005`, which is no address of the provider's region, and the walk along next
links from the sentinel never comes back to the sentinel (outside the region the memory
holds the zero bytes of `st0`). -/
theorem list_broken_after_second_growth :
    (returned env64 10 (mm_init env64 st0)
        [Call.malloc 8, Call.malloc (2 ^ 64 - 32), Call.malloc 8]
        = some [0x7f00000000b0, 0x7f00000010b0, 0x7f00000000b0]
      ∧ getBlkp (finalState env64 10 (mm_init env64 st0)
            [Call.malloc 8, Call.malloc (2 ^ 64 - 32), Call.malloc 8]).mem
          (hdr env64 (finalState env64 10 (mm_init env64 st0)
            [Call.malloc 8, Call.malloc (2 ^ 64 - 32), Call.malloc 8]).base 2)
          = 0x8000000000000005
      ∧ env64.heapMax < 0x8000000000000005
      ∧ ∀ fuel, listWalk env64 (finalState env64 10 (mm_init env64 st0)
            [Call.malloc 8, Call.malloc (2 ^ 64 - 32), Call.malloc 8]) fuel
          (finalState env64 10 (mm_init env64 st0)
            [Call.malloc 8, Call.malloc (2 ^ 64 - 32), Call.malloc 8]).base = none)
    ∧ returned envLow 10 (mm_init envLow st0)
        [Call.malloc 8, Call.malloc 2200000, Call.malloc 8] = some [65696, 69792, 65696]
    ∧ getBlkp (finalState envLow 10 (mm_init envLow st0)
          [Call.malloc 8, Call.malloc 2200000, Call.malloc 8]).mem
        (hdr envLow (finalState envLow 10 (mm_init envLow st0)
          [Call.malloc 8, Call.malloc 2200000, Call.malloc 8]).base 2)
        = 0x8000000000000005
    ∧ envLow.heapMax < 0x8000000000000005
    ∧ ∀ fuel, listWalk envLow (finalState envLow 10 (mm_init envLow st0)
          [Call.malloc 8, Call.malloc 2200000, Call.malloc 8]) fuel
        (finalState envLow 10 (mm_init envLow st0)
          [Call.malloc 8, Call.malloc 2200000, Call.malloc 8]).base = none := by
  refine ⟨⟨by decide, by decide, by decide, ?_⟩, by decide, by decide, by decide, ?_⟩
  · exact listWalk_lost env64 _ 0x8000000000000005 (by decide) (by decide) (by decide)
      (by decide) (by decide)
  · exact listWalk_lost envLow _ 0x8000000000000005 (by decide) (by decide) (by decide)
      (by decide) (by decide)

/-- C17 (the code breaks it): `mm_init` leaves the sentinel's footer `base[3]` at `blksize = 4`,
`isalloc = 1`; after the first `mm_malloc(8)` the footer holds the link to `base` stored by
`add[1].blkp = prevp`, so it records `blksize = 0x7f0000000010` and `isalloc = 0`.  The header
`base[0]` still records 4 units, allocated, and the pointer returned is `base + 5` units, not
`base + 3`. -/
theorem sentinel_footer_overwritten :
    getBlksize (mm_init env64 st0).mem (hdr env64 (mm_init env64 st0).base 3) = 4
      ∧ getIsalloc (mm_init env64 st0).mem (hdr env64 (mm_init env64 st0).base 3) = 1
      ∧ ∃ r ∈ mm_malloc env64 10 (mm_init env64 st0) 8,
          r.2.base = (mm_init env64 st0).base
            ∧ getBlkp r.2.mem (hdr env64 r.2.base 3) = r.2.base
            ∧ getBlksize r.2.mem (hdr env64 r.2.base 3) = 0x7f0000000010
            ∧ getIsalloc r.2.mem (hdr env64 r.2.base 3) = 0
            ∧ getBlksize r.2.mem r.2.base = 4
            ∧ getIsalloc r.2.mem r.2.base = 1
            ∧ r.1 = hdr env64 r.2.base 5 := by
  decide

/-! ## The block handed out stays on the list -/

theorem walkBlocks_ne_nil (env : Env) (nunits : Nat) (s : State) :
    ∀ (fuel b : Nat) (l : List Nat), walkBlocks env nunits fuel s b = some l → l ≠ [] := by
  intro fuel
  induction fuel with
  | zero =>
    intro b l h
    simp [walkBlocks] at h
  | succ k ih =>
    intro b l h
    unfold walkBlocks at h
    split at h
    · injection h with h
      rw [← h]
      exact List.cons_ne_nil _ _
    · split at h
      · injection h with h
        rw [← h]
        exact List.cons_ne_nil _ _
      · cases hw : walkBlocks env nunits k s (getBlkp s.mem (hdr env b 2)) with
        | none => simp [hw] at h
        | some l1 =>
          rw [hw] at h
          simp at h
          rw [← h]
          exact List.cons_ne_nil _ _

/-- The loop stops on the last block of its walk, where it behaves as a single iteration,
and that block passes the test of line 164 or has its next slot pointing to `base`. -/
theorem mallocLoop_at_last (env : Env) (nunits : Nat) (s : State) :
    ∀ (fuel b : Nat) (l : List Nat) (last : Nat),
      walkBlocks env nunits fuel s b = some l → l.getLast? = some last →
      mallocLoop env nunits fuel s b = mallocLoop env nunits 1 s last
        ∧ (fits s.mem nunits last = true
          ∨ (fits s.mem nunits last = false ∧ getBlkp s.mem (hdr env last 2) = s.base)) := by
  intro fuel
  induction fuel with
  | zero =>
    intro b l last h
    simp [walkBlocks] at h
  | succ k ih =>
    intro b l last h hl
    unfold walkBlocks at h
    by_cases hfit : fits s.mem nunits b = true
    · rw [if_pos hfit] at h
      injection h with h
      rw [← h] at hl
      simp at hl
      rw [← hl]
      refine ⟨?_, Or.inl hfit⟩
      unfold mallocLoop
      rw [if_pos hfit, if_pos hfit]
    · rw [if_neg hfit] at h
      have hfit2 : fits s.mem nunits b = false := by
        cases hv : fits s.mem nunits b
        · rfl
        · exact absurd hv hfit
      by_cases htail : getBlkp s.mem (hdr env b 2) = s.base
      · rw [if_pos htail] at h
        injection h with h
        rw [← h] at hl
        simp at hl
        rw [← hl]
        refine ⟨?_, Or.inr ⟨hfit2, htail⟩⟩
        unfold mallocLoop
        rw [if_neg hfit, if_neg hfit, if_pos htail, if_pos htail]
      · rw [if_neg htail] at h
        cases hw : walkBlocks env nunits k s (getBlkp s.mem (hdr env b 2)) with
        | none => simp [hw] at h
        | some l1 =>
          rw [hw] at h
          simp at h
          have hne := walkBlocks_ne_nil env nunits s k _ l1 hw
          obtain ⟨c, l2, hc⟩ := List.exists_cons_of_ne_nil hne
          rw [← h, hc, List.getLast?_cons_cons, ← hc] at hl
          obtain ⟨hrun, hend⟩ := ih _ l1 last hw hl
          refine ⟨?_, hend⟩
          rw [← hrun]
          conv => lhs; unfold mallocLoop
          rw [if_neg hfit, if_neg htail]

/-- If the next slots of the blocks walked before the last one read the same in `m'` as in
the state of the walk, and the last block is `t` or its next slot in `m'` leads to `t`,
then following next links in `m'` visits `t`. -/
theorem visits_along (env : Env) (nunits : Nat) (s : State) (m' : Mem) (t : Nat) :
    ∀ (fuel b : Nat) (l : List Nat) (last : Nat),
      walkBlocks env nunits fuel s b = some l → l.getLast? = some last →
      (∀ x ∈ l.dropLast, getBlkp m' (hdr env x 2) = getBlkp s.mem (hdr env x 2)) →
      (last = t ∨ (getBlkp m' (hdr env last 2) = t ∧ t ≠ s.base)) →
      visits env m' s.base (l.length + 1) b t = true := by
  intro fuel
  induction fuel with
  | zero =>
    intro b l last h
    simp [walkBlocks] at h
  | succ k ih =>
    intro b l last h hl hframe hend
    have hsingle : l = [b] → visits env m' s.base (l.length + 1) b t = true := by
      intro e
      rw [e] at hl
      simp at hl
      rw [e]
      show visits env m' s.base 2 b t = true
      unfold visits
      rcases hend with h1 | ⟨h1, h2⟩
      · simp [hl, h1]
      · rw [← hl] at h1
        rw [h1]
        unfold visits
        simp [h2]
    unfold walkBlocks at h
    by_cases hfit : fits s.mem nunits b = true
    · rw [if_pos hfit] at h
      injection h with h
      exact hsingle h.symm
    · rw [if_neg hfit] at h
      by_cases htail : getBlkp s.mem (hdr env b 2) = s.base
      · rw [if_pos htail] at h
        injection h with h
        exact hsingle h.symm
      · rw [if_neg htail] at h
        cases hw : walkBlocks env nunits k s (getBlkp s.mem (hdr env b 2)) with
        | none => simp [hw] at h
        | some l1 =>
          rw [hw] at h
          simp at h
          have hne := walkBlocks_ne_nil env nunits s k _ l1 hw
          obtain ⟨c, l2, hc⟩ := List.exists_cons_of_ne_nil hne
          have hl1 : l1.getLast? = some last := by
            rw [← h, hc, List.getLast?_cons_cons, ← hc] at hl
            exact hl
          have hdrop : l.dropLast = b :: l1.dropLast := by
            rw [← h]
            exact List.dropLast_cons_of_ne_nil hne
          have hb : getBlkp m' (hdr env b 2) = getBlkp s.mem (hdr env b 2) :=
            hframe b (by rw [hdrop]; exact List.mem_cons_self _ _)
          have hrec := ih _ l1 last hw hl1
            (fun x hx => hframe x (by rw [hdrop]; exact List.mem_cons_of_mem _ hx)) hend
          have hlen : l.length + 1 = (l1.length + 1) + 1 := by
            rw [← h]
            rfl
          rw [hlen]
          unfold visits
          rw [hb, hrec]
          simp [htail]

theorem readW_if_setIsalloc_apart (c : Prop) [Decidable c] (m : Mem) (p v a : Nat)
    (h : a + 8 ≤ p ∨ p + 8 ≤ a) :
    readW (if c then setIsalloc m p v else m) a = readW m a := by
  split
  · exact readW_setIsalloc_apart m p v a h
  · rfl

/-- When `morecore` returns a block, it is the block `mm_free` designates for `bp + 1`, the
new region has its `blksize` written at `bp`, and that block's `isalloc` bit is clear. -/
theorem morecore_shape (env : Env) (s : State) (nu : Nat) (hH : 0 < env.hsz)
    (hne : (morecore env s nu).1 ≠ NULL) :
    ∃ v brk', morecore env s nu = (mm_block env (hdr env s.brk 1),
      { base := s.base, freep := mm_block env (hdr env s.brk 1), brk := brk',
        errno := s.errno,
        mem := if getIsalloc (setBlksize s.mem s.brk v) (mm_block env (hdr env s.brk 1)) = 1
          then setIsalloc (setBlksize s.mem s.brk v) (mm_block env (hdr env s.brk 1)) 0
          else setBlksize s.mem s.brk v }) := by
  unfold morecore at hne ⊢
  simp only [] at hne ⊢
  generalize (if nu < env.pagesize / env.hsz then env.pagesize / env.hsz else nu) = nu1 at hne ⊢
  have hap : ¬ hdr env s.brk 1 = NULL := by
    unfold hdr NULL
    omega
  by_cases hf : (mem_sbrk env s.brk (mm_bytes env nu1)).1 = SBRK_FAIL
  · rw [if_pos hf] at hne
    exact absurd rfl hne
  · have hr : (mem_sbrk env s.brk (mm_bytes env nu1)).1 = s.brk := by
      rcases mem_sbrk_cases env s.brk (mm_bytes env nu1) with h | h
      · rw [h]
      · rw [h] at hf
        exact absurd rfl hf
    refine ⟨nu1, (mem_sbrk env s.brk (mm_bytes env nu1)).2, ?_⟩
    rw [if_neg hf, hr]
    simp only [mm_free, if_neg hap]

/-- C6 (amended): `mm_malloc` leaves the block it hands out on the list.  On an initialized
heap whose walk ends, `mm_malloc(n)` returns; when it returns a non-NULL `p` and the words
it stored into do not overlap the next slots of the blocks its walk passed before the last
one, following next links (slot 2) from the sentinel visits `mm_block(p)` before coming back
to the sentinel: a block taken from the list is not unlinked, and a block obtained by
growing the heap is linked in after the last block of the walk. -/
theorem malloc_block_stays_linked (env : Env) (s : State) (n fuel : Nat) (l : List Nat)
    (last : Nat) (h8 : 8 ≤ env.hsz) (hinit : s.freep ≠ NULL) (hbrk : s.brk < 2 ^ 64)
    (hwalk : walkBlocks env (mm_units env n) fuel s s.base = some l)
    (hlast : l.getLast? = some last) (hlo : s.base ≤ last)
    (hsep : ∀ b ∈ l.dropLast, ∀ w ∈ storedWords env s (mm_units env n) last,
      hdr env b 2 + 8 ≤ w ∨ w + 8 ≤ hdr env b 2) :
    ∃ p s', mm_malloc env fuel s n = some (p, s')
      ∧ (p ≠ NULL →
          visits env s'.mem s'.base (l.length + 1) s'.base (mm_block env p) = true) := by
  obtain ⟨hrun, hend⟩ := mallocLoop_at_last env (mm_units env n) s fuel s.base l last hwalk hlast
  unfold mm_malloc
  simp only [if_neg hinit]
  rw [hrun]
  unfold mallocLoop
  rcases hend with hfit | ⟨hfit, htail⟩
  · rw [if_pos hfit]
    refine ⟨_, _, rfl, fun _ => ?_⟩
    have hsw : storedWords env s (mm_units env n) last = [last, s.freep] := by
      unfold storedWords
      rw [if_pos hfit]
    rw [hsw] at hsep
    apply visits_along env (mm_units env n) s _ _ fuel s.base l last hwalk hlast
    · intro x hx
      have h1 := hsep x hx last (by simp)
      have h2 := hsep x hx s.freep (by simp)
      show readW _ (hdr env x 2) = readW s.mem (hdr env x 2)
      rw [readW_setBlkp_apart _ _ _ _ h2, readW_setIsalloc_apart _ _ _ _ h1,
        readW_if_setBlksize_apart _ _ _ _ _ h1]
    · left
      exact (mm_block_payload env last).symm
  · have hnf : ¬ fits s.mem (mm_units env n) last = true := by
      rw [hfit]
      decide
    rw [if_neg hnf, if_pos htail]
    by_cases hadd : (morecore env s (mm_units env n)).1 = NULL
    · simp only [hadd, if_true]
      exact ⟨_, _, rfl, fun hp => absurd rfl hp⟩
    · have hsw : storedWords env s (mm_units env n) last
          = [s.brk, (morecore env s (mm_units env n)).1,
              hdr env (morecore env s (mm_units env n)).1 1,
              hdr env (morecore env s (mm_units env n)).1 2, hdr env last 2,
              hdr env s.base 1] := by
        unfold storedWords
        rw [if_neg hnf]
      rw [hsw] at hsep
      obtain ⟨v, brk', hm⟩ := morecore_shape env s (mm_units env n) (by omega) hadd
      have haddlt : mm_block env (hdr env s.brk 1) < 2 ^ 64 := by
        unfold mm_block hdr
        omega
      rw [hm] at hsep hadd
      rw [hm]
      simp only [if_neg hadd]
      refine ⟨_, _, rfl, fun _ => ?_⟩
      rw [mm_block_payload]
      show visits env _ s.base (l.length + 1) s.base (mm_block env (hdr env s.brk 1)) = true
      by_cases hb : s.base = mm_block env (hdr env s.brk 1)
      · unfold visits
        simp [hb]
      · apply visits_along env (mm_units env n) s _ _ fuel s.base l last hwalk hlast
        · intro x hx
          have h1 := hsep x hx s.brk (by simp)
          have h2 := hsep x hx (mm_block env (hdr env s.brk 1)) (by simp)
          have h3 := hsep x hx (hdr env (mm_block env (hdr env s.brk 1)) 1) (by simp)
          have h4 := hsep x hx (hdr env (mm_block env (hdr env s.brk 1)) 2) (by simp)
          have h5 := hsep x hx (hdr env last 2) (by simp)
          have h6 := hsep x hx (hdr env s.base 1) (by simp)
          show readW _ (hdr env x 2) = readW s.mem (hdr env x 2)
          rw [readW_setBlkp_apart _ _ _ _ h6, readW_setBlkp_apart _ _ _ _ h5,
            readW_setBlkp_apart _ _ _ _ h4, readW_setBlkp_apart _ _ _ _ h3,
            readW_setIsalloc_apart _ _ _ _ h2, readW_if_setIsalloc_apart _ _ _ _ _ h2,
            readW_setBlksize_apart _ _ _ _ h1]
        · right
          refine ⟨?_, fun e => hb e.symm⟩
          show readW _ (hdr env last 2) = mm_block env (hdr env s.brk 1)
          have hap : hdr env last 2 + 8 ≤ hdr env s.base 1
              ∨ hdr env s.base 1 + 8 ≤ hdr env last 2 := by
            unfold hdr
            omega
          rw [readW_setBlkp_apart _ _ _ _ hap, readW_setBlkp_same _ _ _ haddlt]

/-- Witness for C6 (amended): in `envLow`, after `mm_init; mm_malloc(8)`, the call
`mm_malloc(2200000)` walks the sentinel and the block at 65600, grows the heap, and the words
it stores into lie apart from the sentinel's next slot. -/
theorem malloc_block_stays_linked_witness :
    ∃ p s', mm_malloc envLow 10 (finalState envLow 10 (mm_init envLow st0) [Call.malloc 8])
        2200000 = some (p, s')
      ∧ (p ≠ NULL →
          visits envLow s'.mem s'.base ([65536, 65600].length + 1) s'.base
            (mm_block envLow p) = true) :=
  malloc_block_stays_linked envLow (finalState envLow 10 (mm_init envLow st0) [Call.malloc 8])
    2200000 10 [65536, 65600] 65600 (by decide) (by decide) (by decide) (by decide)
    (by decide) (by decide) (by decide)

end MM
